import Mathlib

/-!
Verification of the spatial-join and aggregation pipeline of `preprocess.py`.

The pipeline reads barrier, stop and route-membership records, buckets
barriers into a 0.001-degree grid, joins each stop with barriers within
0.0005 degrees on each axis (scanning the 3×3 block of grid cells around
the stop), aggregates per-stop severity histograms / type sets / a
plurality-vote neighborhood label, and rolls the per-stop records up by
neighborhood and by route.

Modelling conventions:
* Coordinates and all arithmetic are exact rationals (`ℚ`); the Python
  floats are idealized as exact decimal values.
* `round` is Mathlib's round-to-nearest (half-up); Python rounds
  half-to-even.  The two agree except at exact ties, and no property
  proved here depends on the tie direction.
* Python dicts are insertion-ordered association lists; Python sets that
  are only ever read through `sorted(...)` or `len(...)` are first-seen
  ordered duplicate-free lists.
* A barrier's `severity` CSV field is either empty or an integer string;
  it is modelled as `Option ℤ` (`none` ↔ empty string).  `is_temporary`
  is kept as the raw string compared against "true", as in the source.
-/

/-- A barrier row from `access_to_everyday_life_dataset.csv`, with the
fields `preprocess.py` reads (`geometry/coordinates/0`,
`geometry/coordinates/1`, `properties/is_temporary`, `properties/severity`,
`properties/label_type`, `properties/neighborhood`, `properties/attribute_id`). -/
structure Barrier where
  lon : ℚ
  lat : ℚ
  is_temporary : String
  severity : Option ℤ
  label_type : String
  neighborhood : String
  attribute_id : String
deriving DecidableEq

/-- A stop row from `transit_stop_latlon.csv` (`STOP_ID`, `lat`, `lon`,
`HASTUS_CROSS_STREET_NAME`). -/
structure Stop where
  stop_id : String
  name : String
  lat : ℚ
  lon : ℚ
deriving DecidableEq

/-- A route-membership row from `transit_stop_route_exploded_clean.csv`
(`STOP_ID`, `ROUTE_NUM`). -/
structure RouteRow where
  stop_id : String
  route_num : String
deriving DecidableEq

/-- The constant `GRID_SIZE = 0.001` of `preprocess.py`. -/
def GRID_SIZE : ℚ := 0.001

/-- The proximity threshold `0.0005` hardcoded in the bounding-box test of
`preprocess.py` (line 63). -/
def THRESHOLD : ℚ := 0.0005

/-- Function `grid_key` of `preprocess.py`: bucket a coordinate pair by rounding each
axis to the nearest multiple of `GRID_SIZE`. -/
def grid_key (lon lat : ℚ) : ℤ × ℤ :=
  (round (lon / GRID_SIZE), round (lat / GRID_SIZE))

/-- The axis-aligned bounding-box test of `preprocess.py` line 63:
`abs(b_lon - lon) <= 0.0005 and abs(b_lat - lat) <= 0.0005`. -/
def bboxMatch (slon slat : ℚ) (b : Barrier) : Bool :=
  decide (|b.lon - slon| ≤ THRESHOLD ∧ |b.lat - slat| ≤ THRESHOLD)

/-- The spatial index of `preprocess.py` lines 39-44: `barrier_grid[key]`
holds, in input order, exactly the barriers whose grid key is `key`. -/
def barrier_grid (barriers : List Barrier) (key : ℤ × ℤ) : List Barrier :=
  barriers.filter (fun b => decide (grid_key b.lon b.lat = key))

/-- The nine cell offsets visited by the nested `for dx`/`for dy` loops of
`preprocess.py` lines 57-58, in loop order. -/
def cellOffsets : List (ℤ × ℤ) :=
  [(-1, -1), (-1, 0), (-1, 1), (0, -1), (0, 0), (0, 1), (1, -1), (1, 0), (1, 1)]

/-- The grid-indexed proximity search of `preprocess.py` lines 54-64:
scan the 3×3 block of cells centered on the stop's cell and keep the
barriers passing the bounding-box test, in scan order. -/
def nearby_barriers (barriers : List Barrier) (slon slat : ℚ) : List Barrier :=
  let center := grid_key slon slat
  cellOffsets.flatMap fun d =>
    (barrier_grid barriers (center.1 + d.1, center.2 + d.2)).filter (bboxMatch slon slat)

/-- Modelled from the spec ("a brute-force scan of all barriers applying the
same bounding-box test"): the reference search the grid-indexed one is
compared against in the join-equivalence property. -/
def bruteForceScan (barriers : List Barrier) (slon slat : ℚ) : List Barrier :=
  barriers.filter (bboxMatch slon slat)
/- ### Per-stop aggregation (preprocess.py lines 66-102) -/

/-- Increment key `k` in an insertion-ordered association list, as
`defaultdict(int)`'s `d[k] += 1` does: an existing key keeps its position,
a new key is appended with count 1. -/
def bump {α : Type} [DecidableEq α] : List (α × ℕ) → α → List (α × ℕ)
  | [], k => [(k, 1)]
  | (a, n) :: rest, k => if a = k then (a, n + 1) :: rest else (a, n) :: bump rest k

/-- Add an element to a first-seen-ordered duplicate-free list, as Python's
`set.add` (the program only reads its sets via `sorted` and `len`). -/
def insertSet {α : Type} [DecidableEq α] (l : List α) (x : α) : List α :=
  if x ∈ l then l else l ++ [x]

/-- Look up a key in an association list (first match). -/
def lookupA {α β : Type} [DecidableEq α] : List (α × β) → α → Option β
  | [], _ => none
  | (a, v) :: rest, k => if a = k then some v else lookupA rest k

/-- The four accumulators of the per-stop loop of `preprocess.py` lines
67-70: `severity_counts`, `barrier_types`, `barrier_ids`, `neighborhoods`. -/
structure AggState where
  severity_counts : List (ℤ × ℕ)
  barrier_types : List String
  barrier_ids : List String
  neighborhoods : List (String × ℕ)
deriving DecidableEq

/-- Initial (empty) accumulator state. -/
def AggState.init : AggState := ⟨[], [], [], []⟩

/-- The body of the `for b in nearby_barriers` loop of `preprocess.py`
lines 72-87: skip temporary barriers, skip already-seen attribute ids, skip
empty severities; otherwise record the id, bump the severity histogram, add
the type label, and vote for the (non-empty) neighborhood. -/
def processBarrier (st : AggState) (b : Barrier) : AggState :=
  if b.is_temporary = "true" then st
  else if b.attribute_id ∈ st.barrier_ids then st
  else
    match b.severity with
    | none => st
    | some sev =>
      { severity_counts := bump st.severity_counts sev
        barrier_types := insertSet st.barrier_types b.label_type
        barrier_ids := st.barrier_ids ++ [b.attribute_id]
        neighborhoods :=
          if b.neighborhood = "" then st.neighborhoods else bump st.neighborhoods b.neighborhood }

/-- Run the per-stop loop over a list of matched barriers. -/
def aggregateBarriers (bs : List Barrier) : AggState :=
  bs.foldl processBarrier AggState.init

/-- Model of `max(neighborhoods, key=neighborhoods.get) if neighborhoods else None`
(`preprocess.py` line 90): over an insertion-ordered dict, Python's `max`
returns the first key attaining the maximal value. -/
def maxByCount : List (String × ℕ) → Option String
  | [] => none
  | p :: rest => some (rest.foldl (fun best q => if q.2 > best.2 then q else best) p).1

/-- Python's `sorted` on a list of strings. -/
def sortStrings (l : List String) : List String :=
  l.mergeSort (fun a b => decide (a ≤ b))

/-- Model of `sorted(route_map.get(stop_id, []))` (`preprocess.py` lines 33-35, 97):
the sorted duplicate-free list of `ROUTE_NUM`s of the rows for this stop. -/
def stop_routes (routes : List RouteRow) (sid : String) : List String :=
  sortStrings (((routes.filter (fun r => decide (r.stop_id = sid))).map RouteRow.route_num).foldl insertSet [])

/-- The per-stop output record (`stop_entry`, `preprocess.py` lines 92-102).
The JSON severity dict `{str(k): v}` keeps its integer keys here; the
stringified view is `severityJson`. -/
structure StopRecord where
  id : String
  name : String
  lat : ℚ
  lon : ℚ
  routes : List String
  neighborhood : Option String
  barrier_types : List String
  severity : List (ℤ × ℕ)
  total_barriers : ℕ
deriving DecidableEq

/-- Summarize a stop: run the grid-indexed join and the aggregation loop
and build its `stop_entry` (`preprocess.py` lines 49-102). -/
def summarizeStop (barriers : List Barrier) (routes : List RouteRow) (s : Stop) : StopRecord :=
  let st := aggregateBarriers (nearby_barriers barriers s.lon s.lat)
  { id := s.stop_id
    name := s.name
    lat := s.lat
    lon := s.lon
    routes := stop_routes routes s.stop_id
    neighborhood := maxByCount st.neighborhoods
    barrier_types := sortStrings st.barrier_types
    severity := st.severity_counts.mergeSort (fun p q => decide (p.1 ≤ q.1))
    total_barriers := st.barrier_ids.length }

/-- The list `stop_data` of per-stop records, in stop input order. -/
def stop_data (barriers : List Barrier) (routes : List RouteRow) (stops : List Stop) :
    List StopRecord :=
  stops.map (summarizeStop barriers routes)

/-- The severity dict as it is serialized to JSON: keys stringified. -/
def severityJson (r : StopRecord) : List (String × ℕ) :=
  r.severity.map (fun p => (toString p.1, p.2))

/-- Model of `sum(v for k, v in s["severity"].items() if int(k) >= 3)`
(`preprocess.py` lines 116 and 148): the severity-≥3 histogram mass of a
stop record (`str`/`int` on the keys round-trips). -/
def severeSum (r : StopRecord) : ℕ :=
  ((r.severity.filter (fun p => decide (3 ≤ p.1))).map Prod.snd).sum

/- ### Rollups (preprocess.py lines 110-164) -/

/-- One `nbh_agg` bucket (`preprocess.py` line 112). -/
structure NbhAcc where
  lat_sum : ℚ
  lon_sum : ℚ
  count : ℕ
  barriers : ℕ
  stops : ℕ
deriving DecidableEq

/-- The `defaultdict` default for a neighborhood bucket. -/
def NbhAcc.init : NbhAcc := ⟨0, 0, 0, 0, 0⟩

/-- A `defaultdict` access-and-update: an existing key is updated in place, a
new key is appended initialized from the default. -/
def upsert {α β : Type} [DecidableEq α] (l : List (α × β)) (k : α) (d : β) (f : β → β) :
    List (α × β) :=
  match l with
  | [] => [(k, f d)]
  | (a, v) :: rest => if a = k then (a, f v) :: rest else (a, v) :: upsert rest k d f

/-- Fold one stop record into its neighborhood bucket
(`preprocess.py` lines 119-124). -/
def nbhUpdate (s : StopRecord) (severe : ℕ) (n : NbhAcc) : NbhAcc :=
  { lat_sum := n.lat_sum + s.lat
    lon_sum := n.lon_sum + s.lon
    count := n.count + 1
    barriers := n.barriers + severe
    stops := n.stops + 1 }

/-- One iteration of the neighborhood-aggregation loop
(`preprocess.py` lines 113-124): skip records with a falsy neighborhood or
zero severity-≥3 mass, otherwise update the bucket. -/
def nbhStep (acc : List (String × NbhAcc)) (s : StopRecord) : List (String × NbhAcc) :=
  match s.neighborhood with
  | none => acc
  | some n =>
    if n = "" then acc
    else if severeSum s = 0 then acc
    else upsert acc n NbhAcc.init (nbhUpdate s (severeSum s))

/-- Python's `round(x, n)` on exact rationals. -/
def roundDec (x : ℚ) (n : ℕ) : ℚ := (round (x * 10 ^ n) : ℚ) / 10 ^ n

/-- One entry of the neighborhoods artifact (`preprocess.py` lines 130-137). -/
structure NbhOut where
  name : String
  lat : ℚ
  lon : ℚ
  impacted_stops : ℕ
  total_barriers : ℕ
  friction_intensity : ℚ
deriving DecidableEq

/-- The neighborhoods artifact (`preprocess.py` lines 112-138): fold all stop
records into buckets, emit one entry per bucket with positive count, and sort
descending by `friction_intensity` (Python's stable `list.sort` with
`reverse=True`). -/
def neighborhoods_out (sd : List StopRecord) : List NbhOut :=
  let agg := sd.foldl nbhStep []
  let outs := agg.filterMap fun p =>
    if p.2.count = 0 then none
    else
      some { name := p.1
             lat := roundDec (p.2.lat_sum / (p.2.count : ℚ)) 6
             lon := roundDec (p.2.lon_sum / (p.2.count : ℚ)) 6
             impacted_stops := p.2.stops
             total_barriers := p.2.barriers
             friction_intensity := roundDec ((p.2.barriers : ℚ) / (p.2.stops : ℚ)) 1 }
  outs.mergeSort (fun a b => decide (b.friction_intensity ≤ a.friction_intensity))

/-- One `route_agg` bucket (`preprocess.py` line 146). -/
structure RouteAcc where
  total_friction : ℕ
  impacted_stops : ℕ
deriving DecidableEq

/-- The `defaultdict` default for a route bucket. -/
def RouteAcc.init : RouteAcc := ⟨0, 0⟩

/-- One iteration of the route-aggregation loop (`preprocess.py` lines
147-154): skip records with zero severity-≥3 mass, otherwise credit every
route the stop serves. -/
def routeStep (acc : List (String × RouteAcc)) (s : StopRecord) : List (String × RouteAcc) :=
  if severeSum s = 0 then acc
  else
    s.routes.foldl
      (fun a route =>
        upsert a route RouteAcc.init
          (fun r => ⟨r.total_friction + severeSum s, r.impacted_stops + 1⟩))
      acc

/-- One entry of the routes artifact (`preprocess.py` lines 158-163). -/
structure RouteOut where
  route : String
  total_friction : ℕ
  impacted_stops : ℕ
  friction_per_stop : ℚ
deriving DecidableEq

/-- The routes artifact (`preprocess.py` lines 146-164): fold all stop
records into buckets, emit one entry per bucket (`friction_per_stop`
falls back to 0 on an empty bucket), and sort descending by
`total_friction`. -/
def routes_out (sd : List StopRecord) : List RouteOut :=
  let agg := sd.foldl routeStep []
  let outs := agg.map fun p =>
    { route := p.1
      total_friction := p.2.total_friction
      impacted_stops := p.2.impacted_stops
      friction_per_stop :=
        if p.2.impacted_stops ≠ 0 then
          roundDec ((p.2.total_friction : ℚ) / (p.2.impacted_stops : ℚ)) 2
        else 0 }
  outs.mergeSort (fun a b => decide (b.total_friction ≤ a.total_friction))

/- ### Helper functions used by the verification -/

/-- Sum of the counts (second components) of an association list. -/
def sumSnd {α : Type} (l : List (α × ℕ)) : ℕ := (l.map Prod.snd).sum

/-- Sum of all counts of a stop record's severity histogram. -/
def countsTotal (r : StopRecord) : ℕ := sumSnd r.severity

/-- A barrier survives the aggregation filters iff it is not temporary and
has a severity value (`preprocess.py` lines 73-80). -/
def keepBarrier (b : Barrier) : Bool :=
  decide (b.is_temporary ≠ "true" ∧ b.severity ≠ none)

/-- The surviving barriers of a matched list, given the set of attribute
ids already seen: drops temporary barriers, already-seen ids and empty
severities, and deduplicates by id exactly as the loop of `preprocess.py`
lines 72-81 does. -/
def survivors (seen : List String) : List Barrier → List Barrier
  | [] => []
  | b :: rest =>
    if b.is_temporary = "true" then survivors seen rest
    else if b.attribute_id ∈ seen then survivors seen rest
    else
      match b.severity with
      | none => survivors seen rest
      | some _ => b :: survivors (b.attribute_id :: seen) rest

/-- The unguarded loop body: record a surviving barrier unconditionally. -/
def addSurvivor (st : AggState) (b : Barrier) : AggState :=
  { severity_counts := bump st.severity_counts (b.severity.getD 0)
    barrier_types := insertSet st.barrier_types b.label_type
    barrier_ids := st.barrier_ids ++ [b.attribute_id]
    neighborhoods :=
      if b.neighborhood = "" then st.neighborhoods else bump st.neighborhoods b.neighborhood }

/-- Number of votes a neighborhood label receives from a list of surviving
barriers. -/
def votesCount (S : List Barrier) (m : String) : ℕ :=
  (S.filter (fun b => decide (b.neighborhood = m))).length

/-- The non-empty neighborhood labels of a barrier list, in order. -/
def voteLabels (S : List Barrier) : List String :=
  (S.map Barrier.neighborhood).filter (fun x => decide (x ≠ ""))

/-- Keys of an association list, in order. -/
def keysOf {α β : Type} (l : List (α × β)) : List α := l.map Prod.fst

/-- Association-list lookup with a default. -/
def lookupD {α β : Type} [DecidableEq α] (l : List (α × β)) (k : α) (d : β) : β :=
  (lookupA l k).getD d

/-- The bucket update a contributing stop record applies to its
neighborhood bucket. -/
def nbhFold (n : NbhAcc) (s : StopRecord) : NbhAcc := nbhUpdate s (severeSum s) n

/-- The bucket update a contributing stop record applies to one of its
routes' buckets. -/
def routeFold (b : RouteAcc) (s : StopRecord) : RouteAcc :=
  ⟨b.total_friction + severeSum s, b.impacted_stops + 1⟩

/-- A stop record contributes to neighborhood bucket `name` iff its label
is `name` and its severity-≥3 mass is nonzero. -/
def contribN (name : String) (s : StopRecord) : Bool :=
  decide (s.neighborhood = some name ∧ severeSum s ≠ 0)

/-- A stop record contributes to route bucket `r` iff it serves `r` and its
severity-≥3 mass is nonzero. -/
def contribR (r : String) (s : StopRecord) : Bool :=
  decide (r ∈ s.routes ∧ severeSum s ≠ 0)

/-- Modelled from the spec's glossary ("**Friction**: sum of
impactful-barrier severities at a given scope"): the sum of the severity
values (not the count) of the severity-≥3 entries of a stop record's
histogram. -/
def frictionGlossary (r : StopRecord) : ℤ :=
  ((r.severity.filter (fun p => decide (3 ≤ p.1))).map (fun p => p.1 * (p.2 : ℤ))).sum
/-- The concrete stop of the spec's test scenario: (−122.33, 47.60). -/
def exampleStop : Stop :=
  { stop_id := "S1", name := "PINE ST", lat := 47.60, lon := -122.33 }

/-- The concrete barrier of the spec's test scenario: (−122.3301, 47.6003),
severity "4", type "NoCurbRamp", not temporary, id "B1". -/
def exampleBarrier : Barrier :=
  { lon := -122.3301, lat := 47.6003, is_temporary := "false", severity := some 4,
    label_type := "NoCurbRamp", neighborhood := "Downtown", attribute_id := "B1" }

/-- A route-membership row for the concrete scenario. -/
def exampleRouteRow : RouteRow := { stop_id := "S1", route_num := "R1" }

/-- The stop record the pipeline computes in the concrete scenario. -/
def exampleRecord : StopRecord :=
  summarizeStop [exampleBarrier] [exampleRouteRow] exampleStop

/-- One step of Python's `max` scan: keep the current best unless the next
entry's count is strictly greater. -/
def pickMax (best q : String × ℕ) : String × ℕ := if q.2 > best.2 then q else best

/-- Two tied barriers used to exhibit the tie-break rule: same vote count,
label "A" voted before label "B". -/
def tieBarrierA : Barrier :=
  { lon := 0, lat := 0, is_temporary := "false", severity := some 3,
    label_type := "NoCurbRamp", neighborhood := "A", attribute_id := "T1" }

/-- Second tied barrier; see `tieBarrierA`. -/
def tieBarrierB : Barrier :=
  { lon := 0, lat := 0, is_temporary := "false", severity := some 3,
    label_type := "NoCurbRamp", neighborhood := "B", attribute_id := "T2" }

/-- The neighborhoods-artifact entry produced by the concrete scenario. -/
def exampleNbhOut : NbhOut :=
  { name := "Downtown", lat := 47.6, lon := -122.33, impacted_stops := 1,
    total_barriers := 1, friction_intensity := 1 }

/-- The routes-artifact entry produced by the concrete scenario. -/
def exampleRouteOut : RouteOut :=
  { route := "R1", total_friction := 1, impacted_stops := 1, friction_per_stop := 1 }

/-! ### Theorems -/
/- ### Helper lemmas for the join equivalence -/

/-- Two rationals within `1/2` of each other round to integers at most one
apart. -/
theorem round_dist_le_one (u v : ℚ) (h : |u - v| ≤ 1 / 2) :
    |round u - round v| ≤ 1 := by
  have hu : |(round u : ℚ) - u| ≤ 1 / 2 := by
    have := abs_sub_round u
    rwa [abs_sub_comm] at this
  have hv : |v - (round v : ℚ)| ≤ 1 / 2 := abs_sub_round v
  have hq : |(round u : ℚ) - (round v : ℚ)| ≤ 3 / 2 := by
    calc |(round u : ℚ) - (round v : ℚ)|
        = |((round u : ℚ) - u) + ((u - v) + (v - round v))| := by ring_nf
      _ ≤ |(round u : ℚ) - u| + |(u - v) + (v - round v)| := abs_add _ _
      _ ≤ |(round u : ℚ) - u| + (|u - v| + |v - (round v : ℚ)|) := by
          gcongr
          exact abs_add _ _
      _ ≤ 1 / 2 + (1 / 2 + 1 / 2) := by gcongr
      _ = 3 / 2 := by norm_num
  have hcast : ((|round u - round v| : ℤ) : ℚ) ≤ 3 / 2 := by
    rw [Int.cast_abs, Int.cast_sub]
    exact hq
  by_contra hlt
  push_neg at hlt
  have h2 : (2 : ℤ) ≤ |round u - round v| := hlt
  have h3 : (2 : ℚ) ≤ ((|round u - round v| : ℤ) : ℚ) := by exact_mod_cast h2
  linarith

/-- Membership in the grid-indexed search: the barrier is in the input list,
its grid key is within one cell of the stop's on each axis, and it passes
the bounding-box test. -/
theorem mem_nearby_iff (barriers : List Barrier) (slon slat : ℚ) (b : Barrier) :
    b ∈ nearby_barriers barriers slon slat ↔
      b ∈ barriers ∧
        |(grid_key b.lon b.lat).1 - (grid_key slon slat).1| ≤ 1 ∧
        |(grid_key b.lon b.lat).2 - (grid_key slon slat).2| ≤ 1 ∧
        bboxMatch slon slat b = true := by
  unfold nearby_barriers barrier_grid
  simp only [List.mem_flatMap, List.mem_filter, decide_eq_true_eq]
  constructor
  · rintro ⟨d, hd, ⟨hb, hkey⟩, hbox⟩
    refine ⟨hb, ?_, ?_, hbox⟩ <;> rw [hkey] <;>
      fin_cases hd <;> simp
  · rintro ⟨hb, h1, h2, hbox⟩
    refine ⟨((grid_key b.lon b.lat).1 - (grid_key slon slat).1,
             (grid_key b.lon b.lat).2 - (grid_key slon slat).2), ?_, ⟨hb, ?_⟩, hbox⟩
    · rw [abs_le] at h1 h2
      simp only [cellOffsets, List.mem_cons, List.mem_singleton, Prod.mk.injEq,
        List.not_mem_nil, or_false]
      omega
    · ext <;> simp

/-- If the threshold is at most half the grid size, a barrier passing the
bounding-box test has its grid key within one cell of the stop's grid key
on each axis. -/
theorem bbox_grid_close (h : THRESHOLD ≤ GRID_SIZE / 2) (slon slat : ℚ) (b : Barrier)
    (hb : bboxMatch slon slat b = true) :
    |(grid_key b.lon b.lat).1 - (grid_key slon slat).1| ≤ 1 ∧
      |(grid_key b.lon b.lat).2 - (grid_key slon slat).2| ≤ 1 := by
  rw [bboxMatch, decide_eq_true_eq] at hb
  have hG : (0 : ℚ) < GRID_SIZE := by norm_num [GRID_SIZE]
  have key : ∀ x y : ℚ, |x - y| ≤ THRESHOLD → |x / GRID_SIZE - y / GRID_SIZE| ≤ 1 / 2 := by
    intro x y hxy
    rw [div_sub_div_same, abs_div, abs_of_pos hG, div_le_iff₀ hG]
    calc |x - y| ≤ THRESHOLD := hxy
      _ ≤ GRID_SIZE / 2 := h
      _ = 1 / 2 * GRID_SIZE := by ring
  exact ⟨round_dist_le_one _ _ (key _ _ hb.1), round_dist_le_one _ _ (key _ _ hb.2)⟩

/-- C1: for every stop and every finite set of barrier records, if the
proximity threshold is at most half the grid cell size, the set of barriers
returned by the grid-indexed 3×3-cell search equals the set returned by a
brute-force scan of all barriers applying the same bounding-box test. -/
theorem grid_search_eq_brute_force (h : THRESHOLD ≤ GRID_SIZE / 2)
    (barriers : List Barrier) (slon slat : ℚ) (b : Barrier) :
    b ∈ nearby_barriers barriers slon slat ↔ b ∈ bruteForceScan barriers slon slat := by
  rw [mem_nearby_iff, bruteForceScan, List.mem_filter]
  constructor
  · rintro ⟨hb, -, -, hbox⟩
    exact ⟨hb, hbox⟩
  · rintro ⟨hb, hbox⟩
    obtain ⟨h1, h2⟩ := bbox_grid_close h slon slat b hbox
    exact ⟨hb, h1, h2, hbox⟩

/-- Witness for C1: the hypothesis `THRESHOLD ≤ GRID_SIZE / 2` holds for the
program's constants, and the equivalence is instantiated at the spec's
concrete scenario. -/
theorem grid_search_eq_brute_force_witness :
    THRESHOLD ≤ GRID_SIZE / 2 ∧
      (exampleBarrier ∈ nearby_barriers [exampleBarrier] exampleStop.lon exampleStop.lat ↔
        exampleBarrier ∈ bruteForceScan [exampleBarrier] exampleStop.lon exampleStop.lat) :=
  ⟨by norm_num [THRESHOLD, GRID_SIZE],
    grid_search_eq_brute_force (by norm_num [THRESHOLD, GRID_SIZE]) [exampleBarrier]
      exampleStop.lon exampleStop.lat exampleBarrier⟩

/- ### C3: temporary / severity-less barriers never contribute -/

/-- A temporary barrier, or one with no severity value, leaves the
aggregation state untouched. -/
theorem processBarrier_skip (st : AggState) (b : Barrier)
    (h : b.is_temporary = "true" ∨ b.severity = none) : processBarrier st b = st := by
  unfold processBarrier
  rcases h with h | h
  · simp [h]
  · by_cases ht : b.is_temporary = "true"
    · simp [ht]
    · by_cases hid : b.attribute_id ∈ st.barrier_ids <;> simp [ht, hid, h]

/-- Dropping the skipped barriers from the matched list does not change the
aggregation fold. -/
theorem foldl_process_filter (bs : List Barrier) : ∀ st : AggState,
    (bs.filter keepBarrier).foldl processBarrier st = bs.foldl processBarrier st := by
  induction bs with
  | nil => intro st; rfl
  | cons b rest ih =>
    intro st
    by_cases hk : keepBarrier b = true
    · rw [List.filter_cons_of_pos hk, List.foldl_cons, List.foldl_cons, ih]
    · have hskip : b.is_temporary = "true" ∨ b.severity = none := by
        rw [keepBarrier, decide_eq_true_eq] at hk
        by_cases ht : b.is_temporary = "true"
        · exact Or.inl ht
        · right
          by_contra hs
          exact hk ⟨ht, hs⟩
      rw [List.filter_cons_of_neg (by simpa using hk), List.foldl_cons,
        processBarrier_skip st b hskip, ih]

/-- Filtering the barrier input commutes with the grid-indexed search. -/
theorem nearby_filter_comm (barriers : List Barrier) (slon slat : ℚ) (p : Barrier → Bool) :
    nearby_barriers (barriers.filter p) slon slat =
      (nearby_barriers barriers slon slat).filter p := by
  simp only [nearby_barriers, barrier_grid]
  rw [List.filter_flatMap]
  congr 1
  funext d
  simp only [List.filter_filter]
  apply List.filter_congr
  intro b _
  cases hb : bboxMatch slon slat b <;>
    cases hg : decide (grid_key b.lon b.lat =
      ((grid_key slon slat).1 + d.1, (grid_key slon slat).2 + d.2)) <;>
    cases hp : p b <;> simp [hb, hg, hp]

/-- C3: a barrier whose `is_temporary` field equals "true" or whose severity
is empty never contributes to any StopRecord: removing all such barriers
from the input leaves every per-stop record (histogram, type list,
neighborhood vote, `total_barriers`) and hence the whole `stop_data`
unchanged. -/
theorem temporary_or_unrated_never_contribute (barriers : List Barrier)
    (routes : List RouteRow) (stops : List Stop) (s : Stop) :
    summarizeStop (barriers.filter keepBarrier) routes s = summarizeStop barriers routes s ∧
      stop_data (barriers.filter keepBarrier) routes stops = stop_data barriers routes stops := by
  have key : ∀ t : Stop, summarizeStop (barriers.filter keepBarrier) routes t =
      summarizeStop barriers routes t := by
    intro t
    unfold summarizeStop aggregateBarriers
    rw [nearby_filter_comm, foldl_process_filter]
  exact ⟨key s, by unfold stop_data; exact List.map_congr_left fun t _ => key t⟩

/- ### Association-list and set-list helper lemmas -/

/-- Bumping adds exactly one to the total count. -/
theorem sumSnd_bump {α : Type} [DecidableEq α] (l : List (α × ℕ)) (k : α) :
    sumSnd (bump l k) = sumSnd l + 1 := by
  induction l with
  | nil => rfl
  | cons p rest ih =>
    obtain ⟨a, n⟩ := p
    by_cases h : a = k
    · simp only [bump, if_pos h, sumSnd, List.map_cons, List.sum_cons]
      omega
    · simp only [bump, if_neg h, sumSnd, List.map_cons, List.sum_cons] at ih ⊢
      omega

/-- Bumping keeps the key list if the key is present, else appends it. -/
theorem keysOf_bump {α : Type} [DecidableEq α] (l : List (α × ℕ)) (k : α) :
    keysOf (bump l k) = insertSet (keysOf l) k := by
  induction l with
  | nil => rfl
  | cons p rest ih =>
    obtain ⟨a, n⟩ := p
    by_cases h : a = k
    · subst h
      simp [bump, keysOf, insertSet]
    · have hb : bump ((a, n) :: rest) k = (a, n) :: bump rest k := by simp [bump, h]
      rw [hb]
      simp only [keysOf, List.map_cons] at ih ⊢
      rw [ih]
      unfold insertSet
      by_cases hk : k ∈ rest.map Prod.fst <;>
        simp [keysOf, hk, List.mem_cons, Ne.symm h]

/-- Looking up the bumped key. -/
theorem lookupA_bump_self {α : Type} [DecidableEq α] (l : List (α × ℕ)) (k : α) :
    lookupA (bump l k) k = some ((lookupA l k).getD 0 + 1) := by
  induction l with
  | nil => simp [bump, lookupA]
  | cons p rest ih =>
    obtain ⟨a, n⟩ := p
    by_cases h : a = k <;> simp [bump, h, lookupA, ih]

/-- Looking up another key after a bump. -/
theorem lookupA_bump_other {α : Type} [DecidableEq α] (l : List (α × ℕ)) (k m : α)
    (h : m ≠ k) : lookupA (bump l k) m = lookupA l m := by
  induction l with
  | nil => simp [bump, lookupA, Ne.symm h]
  | cons p rest ih =>
    obtain ⟨a, n⟩ := p
    by_cases ha : a = k
    · subst ha
      simp [bump, lookupA, Ne.symm h]
    · by_cases ham : a = m
      · subst ham
        simp [bump, ha, lookupA]
      · simp [bump, ha, lookupA, ham, ih]

/-- Membership in `insertSet`. -/
theorem mem_insertSet {α : Type} [DecidableEq α] (l : List α) (x y : α) :
    y ∈ insertSet l x ↔ y ∈ l ∨ y = x := by
  unfold insertSet
  by_cases h : x ∈ l
  · simp only [if_pos h]
    constructor
    · exact Or.inl
    · rintro (hy | rfl) <;> [exact hy; exact h]
  · simp [if_neg h]

/-- Inserting into a set-list preserves duplicate-freeness. -/
theorem nodup_insertSet {α : Type} [DecidableEq α] (l : List α) (x : α) (h : l.Nodup) :
    (insertSet l x).Nodup := by
  unfold insertSet
  by_cases hx : x ∈ l
  · simpa [hx]
  · simp only [if_neg hx]
    exact List.Nodup.append h (List.nodup_singleton x) (by simpa using hx)

/-- With duplicate-free keys, a pair is in the list iff lookup finds it. -/
theorem lookupA_eq_of_mem {α β : Type} [DecidableEq α] (l : List (α × β)) (k : α) (v : β)
    (hnd : (keysOf l).Nodup) (hm : (k, v) ∈ l) : lookupA l k = some v := by
  induction l with
  | nil => cases hm
  | cons p rest ih =>
    obtain ⟨a, w⟩ := p
    simp only [keysOf, List.map_cons, List.nodup_cons] at hnd
    rcases List.mem_cons.1 hm with h | h
    · obtain ⟨rfl, rfl⟩ := Prod.mk.injEq .. ▸ h
      simp [lookupA]
    · have hak : a ≠ k := by
        rintro rfl
        exact hnd.1 (by simpa [keysOf] using List.mem_map_of_mem Prod.fst h)
      simp only [lookupA, if_neg hak]
      exact ih hnd.2 h

/- ### Survivors: the deduplicated filtered barrier list -/

/-- The survivors only depend on `seen` through membership. -/
theorem survivors_congr : ∀ (bs : List Barrier) (seen seen' : List String),
    (∀ x, x ∈ seen ↔ x ∈ seen') → survivors seen bs = survivors seen' bs := by
  intro bs
  induction bs with
  | nil => intro seen seen' h; rfl
  | cons b rest ih =>
    intro seen seen' h
    by_cases ht : b.is_temporary = "true"
    · simp only [survivors, if_pos ht]
      exact ih _ _ h
    · by_cases hid : b.attribute_id ∈ seen
      · have hid' : b.attribute_id ∈ seen' := (h _).1 hid
        simp only [survivors, if_neg ht, if_pos hid, if_pos hid']
        exact ih _ _ h
      · have hid' : b.attribute_id ∉ seen' := fun hx => hid ((h _).2 hx)
        simp only [survivors, if_neg ht, if_neg hid, if_neg hid']
        cases hsev : b.severity with
        | none => exact ih _ _ h
        | some v =>
          rw [ih (b.attribute_id :: seen) (b.attribute_id :: seen')
            (fun x => by simp [h x])]

/-- The guarded aggregation fold equals the unguarded fold over the
survivors of the matched list. -/
theorem foldl_process_eq_survivors : ∀ (bs : List Barrier) (st : AggState),
    bs.foldl processBarrier st = (survivors st.barrier_ids bs).foldl addSurvivor st := by
  intro bs
  induction bs with
  | nil => intro st; rfl
  | cons b rest ih =>
    intro st
    rw [List.foldl_cons]
    by_cases ht : b.is_temporary = "true"
    · rw [processBarrier_skip st b (Or.inl ht), ih]
      congr 1
      simp [survivors, ht]
    · by_cases hid : b.attribute_id ∈ st.barrier_ids
      · have hpb : processBarrier st b = st := by
          unfold processBarrier
          simp [ht, hid]
        rw [hpb, ih]
        congr 1
        simp [survivors, ht, hid]
      · cases hsev : b.severity with
        | none =>
          rw [processBarrier_skip st b (Or.inr hsev), ih]
          congr 1
          simp [survivors, ht, hid, hsev]
        | some v =>
          have hpb : processBarrier st b = addSurvivor st b := by
            unfold processBarrier addSurvivor
            simp [ht, hid, hsev]
          have hsurv : survivors st.barrier_ids (b :: rest) =
              b :: survivors (b.attribute_id :: st.barrier_ids) rest := by
            simp [survivors, ht, hid, hsev]
          rw [hpb, hsurv, List.foldl_cons, ih (addSurvivor st b)]
          congr 1
          apply survivors_congr
          intro x
          simp only [addSurvivor, List.mem_append, List.mem_cons,
            List.mem_singleton, List.not_mem_nil, or_false]
          tauto

/-- The ids recorded by the unguarded fold: initial ids followed by the
processed barriers' ids in order. -/
theorem ids_foldl_addSurvivor : ∀ (l : List Barrier) (st : AggState),
    (l.foldl addSurvivor st).barrier_ids = st.barrier_ids ++ l.map Barrier.attribute_id := by
  intro l
  induction l with
  | nil => intro st; simp
  | cons b rest ih =>
    intro st
    rw [List.foldl_cons, ih]
    simp [addSurvivor]

/-- Each barrier processed by the unguarded fold adds one to the severity
histogram total. -/
theorem sumSnd_foldl_addSurvivor : ∀ (l : List Barrier) (st : AggState),
    sumSnd (l.foldl addSurvivor st).severity_counts = sumSnd st.severity_counts + l.length := by
  intro l
  induction l with
  | nil => intro st; simp
  | cons b rest ih =>
    intro st
    rw [List.foldl_cons, ih]
    have : (addSurvivor st b).severity_counts = bump st.severity_counts (b.severity.getD 0) := rfl
    rw [this, sumSnd_bump]
    simp
    omega

/-- The aggregation over a matched list is the unguarded fold over its
survivors. -/
theorem aggregateBarriers_eq_survivors (bs : List Barrier) :
    aggregateBarriers bs = (survivors [] bs).foldl addSurvivor AggState.init := by
  unfold aggregateBarriers
  rw [foldl_process_eq_survivors]
  rfl

/-- Survivor ids are duplicate-free and avoid the already-seen set. -/
theorem survivors_ids_nodup : ∀ (bs : List Barrier) (seen : List String),
    ((survivors seen bs).map Barrier.attribute_id).Nodup ∧
      ∀ x ∈ (survivors seen bs).map Barrier.attribute_id, x ∉ seen := by
  intro bs
  induction bs with
  | nil => intro seen; simp [survivors]
  | cons b rest ih =>
    intro seen
    by_cases ht : b.is_temporary = "true"
    · simpa only [survivors, if_pos ht] using ih seen
    · by_cases hid : b.attribute_id ∈ seen
      · simpa only [survivors, if_neg ht, if_pos hid] using ih seen
      · cases hsev : b.severity with
        | none => simpa only [survivors, if_neg ht, if_neg hid, hsev] using ih seen
        | some v =>
          simp only [survivors, if_neg ht, if_neg hid, hsev, List.map_cons, List.nodup_cons,
            List.mem_cons, forall_eq_or_imp]
          obtain ⟨ihn, ihf⟩ := ih (b.attribute_id :: seen)
          refine ⟨⟨fun hx => ?_, ihn⟩, hid, fun x hx => ?_⟩
          · exact ihf _ hx (List.mem_cons_self _ _)
          · intro hxs
            exact ihf x hx (List.mem_cons_of_mem _ hxs)

/-- An id appears among the survivors' ids iff it is unseen and appears
among the ids of the kept (non-temporary, severity-bearing) barriers. -/
theorem mem_survivors_ids : ∀ (bs : List Barrier) (seen : List String) (x : String),
    x ∈ (survivors seen bs).map Barrier.attribute_id ↔
      x ∉ seen ∧ x ∈ (bs.filter keepBarrier).map Barrier.attribute_id := by
  intro bs
  induction bs with
  | nil => intro seen x; simp [survivors]
  | cons b rest ih =>
    intro seen x
    by_cases ht : b.is_temporary = "true"
    · have hk : keepBarrier b = false := by simp [keepBarrier, ht]
      rw [List.filter_cons_of_neg (by simp [hk])]
      simpa only [survivors, if_pos ht] using ih seen x
    · cases hsev : b.severity with
      | none =>
        have hk : keepBarrier b = false := by simp [keepBarrier, ht, hsev]
        rw [List.filter_cons_of_neg (by simp [hk])]
        by_cases hid : b.attribute_id ∈ seen
        · simpa only [survivors, if_neg ht, if_pos hid] using ih seen x
        · simpa only [survivors, if_neg ht, if_neg hid, hsev] using ih seen x
      | some v =>
        have hk : keepBarrier b = true := by simp [keepBarrier, ht, hsev]
        rw [List.filter_cons_of_pos hk, List.map_cons]
        by_cases hid : b.attribute_id ∈ seen
        · rw [show survivors seen (b :: rest) = survivors seen rest by
            simp only [survivors, if_neg ht, if_pos hid]]
          simp only [ih seen x, List.mem_cons]
          constructor
          · rintro ⟨hxs, hxr⟩
            exact ⟨hxs, Or.inr hxr⟩
          · rintro ⟨hxs, hx | hxr⟩
            · exact absurd (hx ▸ hid) hxs
            · exact ⟨hxs, hxr⟩
        · rw [show survivors seen (b :: rest) =
              b :: survivors (b.attribute_id :: seen) rest by
            simp only [survivors, if_neg ht, if_neg hid, hsev]]
          simp only [List.map_cons, List.mem_cons, ih (b.attribute_id :: seen) x]
          constructor
          · rintro (rfl | ⟨hxs, hxr⟩)
            · exact ⟨hid, Or.inl rfl⟩
            · exact ⟨fun hs => hxs (Or.inr hs), Or.inr hxr⟩
          · rintro ⟨hxs, rfl | hxr⟩
            · exact Or.inl rfl
            · by_cases hxb : x = b.attribute_id
              · exact Or.inl hxb
              · refine Or.inr ⟨fun hs => ?_, hxr⟩
                rcases hs with h1 | h1
                · exact hxb h1
                · exact hxs h1

/-- Sorting an association list does not change the total of its counts. -/
theorem sumSnd_mergeSort {α : Type} (l : List (α × ℕ)) (le : α × ℕ → α × ℕ → Bool) :
    sumSnd (l.mergeSort le) = sumSnd l := by
  unfold sumSnd
  exact ((List.mergeSort_perm l le).map Prod.snd).sum_eq

/- ### C4: per-stop deduplication and histogram-total invariants -/

/-- C4: each distinct surviving barrier id is counted exactly once:
`total_barriers` equals the sum of all severity-histogram counts, and
equals the number of distinct ids among the matched surviving barriers
(deduplicating the raw match list), and re-running the join and
aggregation (a pure function here) reproduces it. -/
theorem total_barriers_dedup (barriers : List Barrier) (routes : List RouteRow) (s : Stop) :
    (summarizeStop barriers routes s).total_barriers
        = countsTotal (summarizeStop barriers routes s) ∧
      (summarizeStop barriers routes s).total_barriers
        = (((nearby_barriers barriers s.lon s.lat).filter keepBarrier).map
            Barrier.attribute_id).dedup.length ∧
      (summarizeStop barriers routes s).total_barriers
        = (summarizeStop barriers routes s).total_barriers := by
  have hagg := aggregateBarriers_eq_survivors (nearby_barriers barriers s.lon s.lat)
  have htot : (summarizeStop barriers routes s).total_barriers
      = (survivors [] (nearby_barriers barriers s.lon s.lat)).length := by
    simp only [summarizeStop, hagg, ids_foldl_addSurvivor, AggState.init]
    simp
  have hsev : (summarizeStop barriers routes s).severity
      = ((survivors [] (nearby_barriers barriers s.lon s.lat)).foldl addSurvivor
          AggState.init).severity_counts.mergeSort (fun p q => decide (p.1 ≤ q.1)) := by
    simp only [summarizeStop, hagg]
  refine ⟨?_, ?_, rfl⟩
  · rw [htot, countsTotal, hsev, sumSnd_mergeSort, sumSnd_foldl_addSurvivor]
    simp [AggState.init, sumSnd]
  · rw [htot]
    have hnd := (survivors_ids_nodup (nearby_barriers barriers s.lon s.lat) []).1
    have hmem : ∀ x, x ∈ (survivors [] (nearby_barriers barriers s.lon s.lat)).map
        Barrier.attribute_id ↔
        x ∈ ((nearby_barriers barriers s.lon s.lat).filter keepBarrier).map
          Barrier.attribute_id := by
      intro x
      rw [mem_survivors_ids]
      simp
    have hperm : List.Perm
        ((survivors [] (nearby_barriers barriers s.lon s.lat)).map Barrier.attribute_id)
        ((((nearby_barriers barriers s.lon s.lat).filter keepBarrier).map
          Barrier.attribute_id).dedup) := by
      apply List.perm_of_nodup_nodup_toFinset_eq hnd (List.nodup_dedup _)
      ext x
      simp only [List.mem_toFinset, List.mem_dedup]
      exact hmem x
    calc (survivors [] (nearby_barriers barriers s.lon s.lat)).length
        = ((survivors [] (nearby_barriers barriers s.lon s.lat)).map
            Barrier.attribute_id).length := (List.length_map _ _).symm
      _ = (((nearby_barriers barriers s.lon s.lat).filter keepBarrier).map
            Barrier.attribute_id).dedup.length := hperm.length_eq

/- ### The plurality vote: maxByCount -/

/-- On a non-empty dict, `maxByCount` is the scan fold. -/
theorem maxByCount_cons (p : String × ℕ) (rest : List (String × ℕ)) :
    maxByCount (p :: rest) = some (rest.foldl pickMax p).1 := rfl

/-- The scan fold returns the first entry attaining the maximal count:
everything before it is strictly smaller, everything after it is no
larger. -/
theorem foldl_pickMax_spec : ∀ (rest : List (String × ℕ)) (p : String × ℕ),
    ∃ l1 l2, p :: rest = l1 ++ (rest.foldl pickMax p) :: l2
      ∧ (∀ q ∈ l1, q.2 < (rest.foldl pickMax p).2)
      ∧ (∀ q ∈ l2, q.2 ≤ (rest.foldl pickMax p).2) := by
  intro rest
  induction rest with
  | nil =>
    intro p
    exact ⟨[], [], rfl, by simp, by simp⟩
  | cons q rest' ih =>
    intro p
    rw [List.foldl_cons]
    by_cases h : q.2 > p.2
    · rw [show pickMax p q = q by simp [pickMax, h]]
      obtain ⟨l1, l2, heq, hl1, hl2⟩ := ih q
      refine ⟨p :: l1, l2, ?_, ?_, hl2⟩
      · rw [List.cons_append, ← heq]
      · intro x hx
        have hq : q.2 ≤ (rest'.foldl pickMax q).2 := by
          have hmq : q ∈ q :: rest' := List.mem_cons_self _ _
          rw [heq] at hmq
          rcases List.mem_append.1 hmq with h1 | h1
          · exact le_of_lt (hl1 _ h1)
          · rcases List.mem_cons.1 h1 with h2 | h2
            · exact le_of_eq (congrArg Prod.snd h2)
            · exact hl2 _ h2
        rcases List.mem_cons.1 hx with rfl | hxl
        · exact lt_of_lt_of_le h hq
        · exact hl1 _ hxl
    · rw [show pickMax p q = p by simp [pickMax, h]]
      push_neg at h
      obtain ⟨l1, l2, heq, hl1, hl2⟩ := ih p
      cases l1 with
      | nil =>
        simp only [List.nil_append] at heq
        have hp : p = rest'.foldl pickMax p := by
          have := heq
          injection this with h1 h2
        have hrest : rest' = l2 := by
          injection heq with h1 h2
        refine ⟨[], q :: l2, ?_, by simp, ?_⟩
        · simp only [List.nil_append]
          rw [← hp, ← hrest]
        · intro x hx
          rcases List.mem_cons.1 hx with rfl | hxl
          · exact le_trans h (le_of_eq (congrArg Prod.snd hp))
          · exact hl2 _ hxl
      | cons a l1' =>
        have hpa : p = a := by
          rw [List.cons_append] at heq
          injection heq with h1 h2
        have hrest : rest' = l1' ++ (rest'.foldl pickMax p) :: l2 := by
          rw [List.cons_append] at heq
          injection heq with h1 h2
        refine ⟨p :: q :: l1', l2, ?_, ?_, hl2⟩
        · rw [List.cons_append, List.cons_append, ← hrest]
        · intro x hx
          have hplt : p.2 < (rest'.foldl pickMax p).2 := by
            have : a ∈ a :: l1' := List.mem_cons_self _ _
            have := hl1 _ this
            rwa [← hpa] at this
          rcases List.mem_cons.1 hx with rfl | hx2
          · exact hplt
          · rcases List.mem_cons.1 hx2 with rfl | hx3
            · exact lt_of_le_of_lt h hplt
            · exact hl1 _ (List.mem_cons_of_mem _ hx3)

/- ### Neighborhood vote bookkeeping -/

/-- Counts stay positive under `bump`. -/
theorem bump_pos {α : Type} [DecidableEq α] (l : List (α × ℕ)) (k : α)
    (h : ∀ p ∈ l, 0 < p.2) : ∀ p ∈ bump l k, 0 < p.2 := by
  induction l with
  | nil =>
    intro p hp
    simp only [bump, List.mem_singleton] at hp
    simp [hp]
  | cons q rest ih =>
    obtain ⟨a, n⟩ := q
    intro p hp
    by_cases ha : a = k
    · simp only [bump, if_pos ha, List.mem_cons] at hp
      rcases hp with rfl | hp
      · simp
      · exact h _ (List.mem_cons_of_mem _ hp)
    · simp only [bump, if_neg ha, List.mem_cons] at hp
      rcases hp with rfl | hp
      · exact h _ (List.mem_cons_self _ _)
      · exact ih (fun q hq => h _ (List.mem_cons_of_mem _ hq)) _ hp

/-- The vote tally of the unguarded fold: initial tally plus the votes among
the processed barriers, for any non-empty label. -/
theorem votes_foldl_addSurvivor : ∀ (l : List Barrier) (st : AggState) (m : String),
    m ≠ "" →
    lookupD ((l.foldl addSurvivor st).neighborhoods) m 0
      = lookupD st.neighborhoods m 0 + votesCount l m := by
  intro l
  induction l with
  | nil => intro st m hm; simp [votesCount]
  | cons b rest ih =>
    intro st m hm
    rw [List.foldl_cons, ih _ _ hm]
    have hvc : votesCount (b :: rest) m
        = (if b.neighborhood = m then 1 else 0) + votesCount rest m := by
      unfold votesCount
      by_cases hb : b.neighborhood = m
      · rw [List.filter_cons_of_pos (by simp [hb]), List.length_cons]
        simp [hb]
        omega
      · rw [List.filter_cons_of_neg (by simp [hb])]
        simp [hb]
    rw [hvc]
    by_cases hempty : b.neighborhood = ""
    · have hbm : b.neighborhood ≠ m := fun hc => hm (hc ▸ hempty)
      have : (addSurvivor st b).neighborhoods = st.neighborhoods := by
        simp [addSurvivor, hempty]
      rw [this, if_neg hbm]
      omega
    · have : (addSurvivor st b).neighborhoods = bump st.neighborhoods b.neighborhood := by
        simp [addSurvivor, hempty]
      rw [this]
      by_cases hbm : b.neighborhood = m
      · subst hbm
        unfold lookupD
        rw [lookupA_bump_self]
        simp
        omega
      · unfold lookupD
        rw [lookupA_bump_other _ _ _ (fun hc => hbm hc.symm), if_neg hbm]
        omega

/-- The vote dict's key list after the unguarded fold: previous keys, then
each new non-empty label in order of first vote. -/
theorem keys_foldl_addSurvivor : ∀ (l : List Barrier) (st : AggState),
    keysOf ((l.foldl addSurvivor st).neighborhoods)
      = (voteLabels l).foldl insertSet (keysOf st.neighborhoods) := by
  intro l
  induction l with
  | nil => intro st; simp [voteLabels]
  | cons b rest ih =>
    intro st
    rw [List.foldl_cons, ih]
    by_cases hempty : b.neighborhood = ""
    · have h1 : (addSurvivor st b).neighborhoods = st.neighborhoods := by
        simp [addSurvivor, hempty]
      have h2 : voteLabels (b :: rest) = voteLabels rest := by
        unfold voteLabels
        rw [List.map_cons, List.filter_cons_of_neg (by simp [hempty])]
      rw [h1, h2]
    · have h1 : (addSurvivor st b).neighborhoods = bump st.neighborhoods b.neighborhood := by
        simp [addSurvivor, hempty]
      have h2 : voteLabels (b :: rest) = b.neighborhood :: voteLabels rest := by
        unfold voteLabels
        rw [List.map_cons, List.filter_cons_of_pos (by simp [hempty])]
      rw [h1, h2, keysOf_bump, List.foldl_cons]

/-- Membership in an `insertSet` fold. -/
theorem mem_foldl_insertSet {α : Type} [DecidableEq α] :
    ∀ (labels : List α) (init : List α) (x : α),
    x ∈ labels.foldl insertSet init ↔ x ∈ init ∨ x ∈ labels := by
  intro labels
  induction labels with
  | nil => intro init x; simp
  | cons a rest ih =>
    intro init x
    rw [List.foldl_cons, ih, mem_insertSet]
    rw [List.mem_cons]
    tauto

/-- An `insertSet` fold over a duplicate-free start stays duplicate-free. -/
theorem nodup_foldl_insertSet {α : Type} [DecidableEq α] :
    ∀ (labels : List α) (init : List α), init.Nodup → (labels.foldl insertSet init).Nodup := by
  intro labels
  induction labels with
  | nil => intro init h; exact h
  | cons a rest ih =>
    intro init h
    rw [List.foldl_cons]
    exact ih _ (nodup_insertSet _ _ h)

/-- Every count in the vote dict after the unguarded fold is positive, its
keys are duplicate-free, and the empty label never appears, provided the
initial dict satisfies the same. -/
theorem nbh_inv_foldl_addSurvivor : ∀ (l : List Barrier) (st : AggState),
    (∀ p ∈ st.neighborhoods, 0 < p.2) → (keysOf st.neighborhoods).Nodup →
    "" ∉ keysOf st.neighborhoods →
    (∀ p ∈ (l.foldl addSurvivor st).neighborhoods, 0 < p.2) ∧
      (keysOf ((l.foldl addSurvivor st).neighborhoods)).Nodup ∧
      "" ∉ keysOf ((l.foldl addSurvivor st).neighborhoods) := by
  intro l
  induction l with
  | nil => intro st h1 h2 h3; exact ⟨h1, h2, h3⟩
  | cons b rest ih =>
    intro st h1 h2 h3
    rw [List.foldl_cons]
    by_cases hempty : b.neighborhood = ""
    · have heq : (addSurvivor st b).neighborhoods = st.neighborhoods := by
        simp [addSurvivor, hempty]
      exact ih _ (heq ▸ h1) (heq ▸ h2) (heq ▸ h3)
    · have heq : (addSurvivor st b).neighborhoods = bump st.neighborhoods b.neighborhood := by
        simp [addSurvivor, hempty]
      apply ih
      · rw [heq]
        exact bump_pos _ _ h1
      · rw [heq, keysOf_bump]
        exact nodup_insertSet _ _ h2
      · rw [heq, keysOf_bump, mem_insertSet]
        rintro (hc | hc)
        · exact h3 hc
        · exact hempty hc.symm

/-- A successful lookup comes from a pair in the list. -/
theorem lookupA_mem {α β : Type} [DecidableEq α] :
    ∀ (l : List (α × β)) (k : α) (v : β), lookupA l k = some v → (k, v) ∈ l := by
  intro l
  induction l with
  | nil => intro k v h; cases h
  | cons p rest ih =>
    obtain ⟨a, w⟩ := p
    intro k v h
    by_cases hak : a = k
    · subst hak
      simp only [lookupA, if_true, eq_self_iff_true, Option.some.injEq] at h
      subst h
      exact List.mem_cons_self _ _
    · simp only [lookupA, if_neg hak] at h
      exact List.mem_cons_of_mem _ (ih _ _ h)

/-- The scan `maxByCount` returns `none` exactly on the empty dict. -/
theorem maxByCount_eq_none (l : List (String × ℕ)) : maxByCount l = none ↔ l = [] := by
  cases l <;> simp [maxByCount]

/-- A label appears in `voteLabels` iff some barrier in the list carries it
and it is non-empty. -/
theorem mem_voteLabels (S : List Barrier) (m : String) :
    m ∈ voteLabels S ↔ (∃ b ∈ S, b.neighborhood = m) ∧ m ≠ "" := by
  unfold voteLabels
  simp only [List.mem_filter, List.mem_map, decide_eq_true_eq]

/-- C5: the chosen neighborhood label attains the maximum vote count among
the non-empty labels of the surviving barriers, and a stop with no
surviving labelled barrier gets `none`. -/
theorem neighborhood_is_plurality (barriers : List Barrier) (routes : List RouteRow) (s : Stop) :
    ((summarizeStop barriers routes s).neighborhood = none ↔
      ∀ b ∈ survivors [] (nearby_barriers barriers s.lon s.lat), b.neighborhood = "") ∧
    (∀ n, (summarizeStop barriers routes s).neighborhood = some n →
      n ≠ "" ∧
      (∃ b ∈ survivors [] (nearby_barriers barriers s.lon s.lat), b.neighborhood = n) ∧
      ∀ m, m ≠ "" →
        votesCount (survivors [] (nearby_barriers barriers s.lon s.lat)) m ≤
          votesCount (survivors [] (nearby_barriers barriers s.lon s.lat)) n) := by
  have hnb : (summarizeStop barriers routes s).neighborhood
      = maxByCount ((survivors [] (nearby_barriers barriers s.lon s.lat)).foldl
          addSurvivor AggState.init).neighborhoods := by
    simp only [summarizeStop, aggregateBarriers_eq_survivors]
  have hkeys := keys_foldl_addSurvivor (survivors [] (nearby_barriers barriers s.lon s.lat))
    AggState.init
  have hinv := nbh_inv_foldl_addSurvivor (survivors [] (nearby_barriers barriers s.lon s.lat))
    AggState.init (by intro p hp; cases hp) (by constructor) (by intro h; cases h)
  obtain ⟨hpos, hnd, hne⟩ := hinv
  have hmemkeys : ∀ m, m ∈ keysOf ((survivors [] (nearby_barriers barriers s.lon s.lat)).foldl
      addSurvivor AggState.init).neighborhoods ↔
      m ∈ voteLabels (survivors [] (nearby_barriers barriers s.lon s.lat)) := by
    intro m
    rw [hkeys]
    have : keysOf AggState.init.neighborhoods = ([] : List String) := rfl
    rw [this, mem_foldl_insertSet]
    simp
  have hvotes : ∀ m, m ≠ "" →
      lookupD ((survivors [] (nearby_barriers barriers s.lon s.lat)).foldl
        addSurvivor AggState.init).neighborhoods m 0
      = votesCount (survivors [] (nearby_barriers barriers s.lon s.lat)) m := by
    intro m hm
    rw [votes_foldl_addSurvivor _ _ _ hm]
    simp [lookupD, AggState.init, lookupA]
  constructor
  · rw [hnb, maxByCount_eq_none]
    constructor
    · intro hdict b hb
      by_contra hbn
      have hvl : b.neighborhood ∈ voteLabels
          (survivors [] (nearby_barriers barriers s.lon s.lat)) :=
        (mem_voteLabels _ _).2 ⟨⟨b, hb, rfl⟩, hbn⟩
      rw [← hmemkeys] at hvl
      rw [hdict] at hvl
      cases hvl
    · intro hall
      have hvl : voteLabels (survivors [] (nearby_barriers barriers s.lon s.lat)) = [] := by
        rw [List.eq_nil_iff_forall_not_mem]
        intro m hm
        obtain ⟨⟨b, hb, rfl⟩, hmne⟩ := (mem_voteLabels _ _).1 hm
        exact hmne (hall b hb)
      have : keysOf ((survivors [] (nearby_barriers barriers s.lon s.lat)).foldl
          addSurvivor AggState.init).neighborhoods = [] := by
        rw [hkeys, hvl]
        rfl
      unfold keysOf at this
      exact List.map_eq_nil_iff.1 this
  · intro n hn
    rw [hnb] at hn
    rcases hdict : ((survivors [] (nearby_barriers barriers s.lon s.lat)).foldl
        addSurvivor AggState.init).neighborhoods with _ | ⟨p, rest⟩
    · rw [hdict] at hn
      cases hn
    · rw [hdict, maxByCount_cons, Option.some.injEq] at hn
      obtain ⟨l1, l2, heq, hl1, hl2⟩ := foldl_pickMax_spec rest p
      have hbestmem : rest.foldl pickMax p ∈ p :: rest := by
        rw [heq]
        exact List.mem_append_right _ (List.mem_cons_self _ _)
      have hballmem : rest.foldl pickMax p ∈ ((survivors []
          (nearby_barriers barriers s.lon s.lat)).foldl addSurvivor
          AggState.init).neighborhoods := by
        rw [hdict]
        exact hbestmem
      have hnkeys : n ∈ keysOf ((survivors [] (nearby_barriers barriers s.lon s.lat)).foldl
          addSurvivor AggState.init).neighborhoods := by
        unfold keysOf
        rw [← hn]
        exact List.mem_map_of_mem Prod.fst hballmem
      have hnvl := (hmemkeys n).1 hnkeys
      obtain ⟨⟨b, hb, hbn⟩, hnne⟩ := (mem_voteLabels _ _).1 hnvl
      refine ⟨hnne, ⟨b, hb, hbn⟩, ?_⟩
      intro m hm
      have hnval : lookupA ((survivors [] (nearby_barriers barriers s.lon s.lat)).foldl
          addSurvivor AggState.init).neighborhoods n = some (rest.foldl pickMax p).2 := by
        apply lookupA_eq_of_mem _ _ _ hnd
        rw [← hn]
        exact hballmem
      have hvn : votesCount (survivors [] (nearby_barriers barriers s.lon s.lat)) n
          = (rest.foldl pickMax p).2 := by
        rw [← hvotes n hnne]
        simp [lookupD, hnval]
      rw [hvn, ← hvotes m hm]
      rcases hlm : lookupA ((survivors [] (nearby_barriers barriers s.lon s.lat)).foldl
          addSurvivor AggState.init).neighborhoods m with _ | c
      · simp [lookupD, hlm]
      · have hcmem := lookupA_mem _ _ _ hlm
        rw [hdict] at hcmem
        have hle : c ≤ (rest.foldl pickMax p).2 := by
          rw [heq] at hcmem
          rcases List.mem_append.1 hcmem with h1 | h1
          · exact le_of_lt (hl1 _ h1)
          · rcases List.mem_cons.1 h1 with h2 | h2
            · exact le_of_eq (congrArg Prod.snd h2)
            · exact hl2 _ h2
        simp [lookupD, hlm]
        exact hle

/- ### C9: deterministic tie-break by earliest first vote -/

/-- C9: the chosen label is the first entry of the vote dict attaining the
maximal count (everything before it in insertion order is strictly
smaller), and the dict's insertion order is the order of first votes among
the surviving barriers of the scanned list. -/
theorem neighborhood_tiebreak_first_vote (bs : List Barrier) :
    (∀ n, maxByCount (aggregateBarriers bs).neighborhoods = some n →
      ∃ l1 c l2, (aggregateBarriers bs).neighborhoods = l1 ++ (n, c) :: l2 ∧
        (∀ q ∈ l1, q.2 < c) ∧ (∀ q ∈ l2, q.2 ≤ c)) ∧
    keysOf (aggregateBarriers bs).neighborhoods
      = (voteLabels (survivors [] bs)).foldl insertSet [] := by
  constructor
  · intro n hn
    rcases hdict : (aggregateBarriers bs).neighborhoods with _ | ⟨p, rest⟩
    · rw [hdict] at hn
      cases hn
    · rw [hdict, maxByCount_cons, Option.some.injEq] at hn
      obtain ⟨l1, l2, heq, hl1, hl2⟩ := foldl_pickMax_spec rest p
      refine ⟨l1, (rest.foldl pickMax p).2, l2, ?_, hl1, hl2⟩
      subst hn
      simpa using heq
  · rw [aggregateBarriers_eq_survivors, keys_foldl_addSurvivor]
    rfl

/-- Witness for C9: with two surviving barriers voting "A" then "B" (a
1-1 tie), the label voted first wins and sits first in the dict. -/
theorem neighborhood_tiebreak_first_vote_witness :
    maxByCount (aggregateBarriers [tieBarrierA, tieBarrierB]).neighborhoods = some "A" ∧
    ∃ l1 c l2, (aggregateBarriers [tieBarrierA, tieBarrierB]).neighborhoods
        = l1 ++ ("A", c) :: l2 ∧ (∀ q ∈ l1, q.2 < c) ∧ (∀ q ∈ l2, q.2 ≤ c) :=
  ⟨by decide,
    (neighborhood_tiebreak_first_vote [tieBarrierA, tieBarrierB]).1 "A" (by decide)⟩

/- ### defaultdict upsert lemmas -/

/-- Looking up the upserted key. -/
theorem lookupA_upsert_self {α β : Type} [DecidableEq α]
    (l : List (α × β)) (k : α) (d : β) (f : β → β) :
    lookupA (upsert l k d f) k = some (f ((lookupA l k).getD d)) := by
  induction l with
  | nil => simp [upsert, lookupA]
  | cons p rest ih =>
    obtain ⟨a, v⟩ := p
    by_cases h : a = k
    · subst h
      simp [upsert, lookupA]
    · simp [upsert, h, lookupA, ih]

/-- Looking up another key after an upsert. -/
theorem lookupA_upsert_other {α β : Type} [DecidableEq α]
    (l : List (α × β)) (k m : α) (d : β) (f : β → β) (h : m ≠ k) :
    lookupA (upsert l k d f) m = lookupA l m := by
  induction l with
  | nil => simp [upsert, lookupA, Ne.symm h]
  | cons p rest ih =>
    obtain ⟨a, v⟩ := p
    by_cases ha : a = k
    · subst ha
      simp [upsert, lookupA, Ne.symm h]
    · by_cases ham : a = m
      · subst ham
        simp [upsert, ha, lookupA]
      · simp [upsert, ha, lookupA, ham, ih]

/-- Upserting keeps the key list if the key is present, else appends it. -/
theorem keysOf_upsert {α β : Type} [DecidableEq α]
    (l : List (α × β)) (k : α) (d : β) (f : β → β) :
    keysOf (upsert l k d f) = insertSet (keysOf l) k := by
  induction l with
  | nil => rfl
  | cons p rest ih =>
    obtain ⟨a, v⟩ := p
    by_cases h : a = k
    · subst h
      simp [upsert, keysOf, insertSet]
    · have hb : upsert ((a, v) :: rest) k d f = (a, v) :: upsert rest k d f := by
        simp [upsert, h]
      rw [hb]
      simp only [keysOf, List.map_cons] at ih ⊢
      rw [ih]
      unfold insertSet
      by_cases hk : k ∈ rest.map Prod.fst <;>
        simp [keysOf, hk, List.mem_cons, Ne.symm h]

/-- A property of the values holds after `upsert` if it held before and `f`
always establishes it. -/
theorem upsert_values {α β : Type} [DecidableEq α]
    (l : List (α × β)) (k : α) (d : β) (f : β → β) (Q : β → Prop)
    (hl : ∀ p ∈ l, Q p.2) (hf : ∀ v, Q (f v)) : ∀ p ∈ upsert l k d f, Q p.2 := by
  induction l with
  | nil =>
    intro p hp
    simp only [upsert, List.mem_singleton] at hp
    subst hp
    exact hf d
  | cons q rest ih =>
    obtain ⟨a, v⟩ := q
    intro p hp
    by_cases h : a = k
    · subst h
      simp only [upsert, if_pos rfl] at hp
      cases hp with
      | head => exact hf v
      | tail _ hp => exact hl _ (List.mem_cons_of_mem _ hp)
    · simp only [upsert, if_neg h] at hp
      cases hp with
      | head => exact hl _ (List.mem_cons_self _ _)
      | tail _ hp => exact ih (fun q hq => hl _ (List.mem_cons_of_mem _ hq)) _ hp

/- ### Neighborhood rollup bookkeeping -/

/-- The neighborhood bucket of `name` after folding the stop records is the
bucket-update fold over exactly the records contributing to `name`. -/
theorem nbh_value_foldl : ∀ (sd : List StopRecord) (acc : List (String × NbhAcc))
    (name : String), name ≠ "" →
    lookupD (sd.foldl nbhStep acc) name NbhAcc.init
      = (sd.filter (contribN name)).foldl nbhFold (lookupD acc name NbhAcc.init) := by
  intro sd
  induction sd with
  | nil => intro acc name _; rfl
  | cons s sd' ih =>
    intro acc name hname
    rw [List.foldl_cons]
    rcases hn : s.neighborhood with _ | n
    · have hstep : nbhStep acc s = acc := by simp [nbhStep, hn]
      have hc : contribN name s = false := by simp [contribN, hn]
      rw [hstep, List.filter_cons_of_neg (by simp [hc]), ih _ _ hname]
    · by_cases hne : n = ""
      · subst hne
        have hstep : nbhStep acc s = acc := by simp [nbhStep, hn]
        have hc : contribN name s = false := by
          simp only [contribN, hn, decide_eq_false_iff_not, not_and, Option.some.injEq]
          intro hc
          exact absurd hc.symm hname
        rw [hstep, List.filter_cons_of_neg (by simp [hc]), ih _ _ hname]
      · by_cases hs : severeSum s = 0
        · have hstep : nbhStep acc s = acc := by simp [nbhStep, hn, hne, hs]
          have hc : contribN name s = false := by simp [contribN, hs]
          rw [hstep, List.filter_cons_of_neg (by simp [hc]), ih _ _ hname]
        · have hstep : nbhStep acc s
              = upsert acc n NbhAcc.init (nbhUpdate s (severeSum s)) := by
            simp [nbhStep, hn, hne, hs]
          by_cases hnn : n = name
          · subst hnn
            have hc : contribN n s = true := by simp [contribN, hn, hs]
            rw [hstep, List.filter_cons_of_pos hc, List.foldl_cons, ih _ _ hname]
            congr 1
            unfold lookupD
            rw [lookupA_upsert_self]
            rfl
          · have hc : contribN name s = false := by simp [contribN, hn, hnn]
            rw [hstep, List.filter_cons_of_neg (by simp [hc]), ih _ _ hname]
            unfold lookupD
            rw [lookupA_upsert_other _ _ _ _ _ (fun hc2 => hnn hc2.symm)]

/-- The neighborhood aggregation keeps its keys duplicate-free and never
creates an empty-string key. -/
theorem nbh_keys_inv : ∀ (sd : List StopRecord) (acc : List (String × NbhAcc)),
    (keysOf acc).Nodup → "" ∉ keysOf acc →
    (keysOf (sd.foldl nbhStep acc)).Nodup ∧ "" ∉ keysOf (sd.foldl nbhStep acc) := by
  intro sd
  induction sd with
  | nil => intro acc h1 h2; exact ⟨h1, h2⟩
  | cons s sd' ih =>
    intro acc h1 h2
    rw [List.foldl_cons]
    rcases hn : s.neighborhood with _ | n
    · rw [show nbhStep acc s = acc by simp [nbhStep, hn]]
      exact ih _ h1 h2
    · by_cases hne : n = ""
      · subst hne
        rw [show nbhStep acc s = acc by simp [nbhStep, hn]]
        exact ih _ h1 h2
      · by_cases hs : severeSum s = 0
        · rw [show nbhStep acc s = acc by simp [nbhStep, hn, hne, hs]]
          exact ih _ h1 h2
        · rw [show nbhStep acc s = upsert acc n NbhAcc.init (nbhUpdate s (severeSum s)) by
            simp [nbhStep, hn, hne, hs]]
          apply ih
          · rw [keysOf_upsert]
            exact nodup_insertSet _ _ h1
          · rw [keysOf_upsert, mem_insertSet]
            rintro (hc | hc)
            · exact h2 hc
            · exact hne hc.symm

/-- Every neighborhood bucket ever created has positive member counts. -/
theorem nbh_pos : ∀ (sd : List StopRecord) (acc : List (String × NbhAcc)),
    (∀ p ∈ acc, 0 < (p.2).count ∧ 0 < (p.2).stops) →
    ∀ p ∈ sd.foldl nbhStep acc, 0 < (p.2).count ∧ 0 < (p.2).stops := by
  intro sd
  induction sd with
  | nil => intro acc h; exact h
  | cons s sd' ih =>
    intro acc h
    rw [List.foldl_cons]
    apply ih
    unfold nbhStep
    rcases hn : s.neighborhood with _ | n
    · exact h
    · by_cases hne : n = ""
      · simp only [if_pos hne]
        exact h
      · by_cases hs : severeSum s = 0
        · simp only [if_neg hne, if_pos hs]
          exact h
        · simp only [if_neg hne, if_neg hs]
          apply upsert_values acc n NbhAcc.init (nbhUpdate s (severeSum s))
            (fun v => 0 < v.count ∧ 0 < v.stops) h
          intro v
          constructor <;> simp [nbhUpdate]

/-- Accumulated barrier count, stop count and member count of a bucket
fold. -/
theorem nbhFold_foldl : ∀ (L : List StopRecord) (a : NbhAcc),
    (L.foldl nbhFold a).barriers = a.barriers + (L.map severeSum).sum ∧
      (L.foldl nbhFold a).stops = a.stops + L.length ∧
      (L.foldl nbhFold a).count = a.count + L.length := by
  intro L
  induction L with
  | nil => intro a; simp
  | cons s L' ih =>
    intro a
    rw [List.foldl_cons]
    obtain ⟨h1, h2, h3⟩ := ih (nbhFold a s)
    refine ⟨?_, ?_, ?_⟩
    · rw [h1]
      simp [nbhFold, nbhUpdate]
      omega
    · rw [h2]
      simp [nbhFold, nbhUpdate]
      omega
    · rw [h3]
      simp [nbhFold, nbhUpdate]
      omega

/- ### Route rollup bookkeeping -/

/-- A route bucket not listed by the stop is untouched by the inner route
loop. -/
theorem route_inner_untouched : ∀ (rl : List String) (acc : List (String × RouteAcc))
    (s : StopRecord) (r : String), r ∉ rl →
    lookupA (rl.foldl (fun a route => upsert a route RouteAcc.init
        (fun q => ⟨q.total_friction + severeSum s, q.impacted_stops + 1⟩)) acc) r
      = lookupA acc r := by
  intro rl
  induction rl with
  | nil => intro acc s r _; rfl
  | cons a rl' ih =>
    intro acc s r hr
    rw [List.foldl_cons, ih _ _ _ (fun hc => hr (List.mem_cons_of_mem _ hc)),
      lookupA_upsert_other _ _ _ _ _ (fun hc => hr (by rw [hc]; exact List.mem_cons_self _ _))]

/-- A route bucket listed exactly once by the stop receives exactly one
`routeFold` update from the inner route loop. -/
theorem route_inner_touched : ∀ (rl : List String) (acc : List (String × RouteAcc))
    (s : StopRecord) (r : String), rl.Nodup → r ∈ rl →
    lookupD (rl.foldl (fun a route => upsert a route RouteAcc.init
        (fun q => ⟨q.total_friction + severeSum s, q.impacted_stops + 1⟩)) acc) r RouteAcc.init
      = routeFold (lookupD acc r RouteAcc.init) s := by
  intro rl
  induction rl with
  | nil => intro acc s r _ hr; cases hr
  | cons a rl' ih =>
    intro acc s r hnd hr
    have hnd' := List.nodup_cons.1 hnd
    rw [List.foldl_cons]
    by_cases hra : r = a
    · subst hra
      unfold lookupD
      rw [route_inner_untouched _ _ _ _ hnd'.1, lookupA_upsert_self]
      rfl
    · rcases List.mem_cons.1 hr with hc | hc
      · exact absurd hc hra
      · rw [ih _ _ _ hnd'.2 hc]
        unfold lookupD
        rw [lookupA_upsert_other _ _ _ _ _ hra]

/-- The route bucket of `r` after folding the stop records is the
bucket-update fold over exactly the records contributing to `r`. -/
theorem route_value_foldl : ∀ (sd : List StopRecord) (acc : List (String × RouteAcc))
    (r : String), (∀ s ∈ sd, s.routes.Nodup) →
    lookupD (sd.foldl routeStep acc) r RouteAcc.init
      = (sd.filter (contribR r)).foldl routeFold (lookupD acc r RouteAcc.init) := by
  intro sd
  induction sd with
  | nil => intro acc r _; rfl
  | cons s sd' ih =>
    intro acc r hnd
    have hnds := hnd s (List.mem_cons_self _ _)
    have hnd' : ∀ t ∈ sd', t.routes.Nodup := fun t ht => hnd t (List.mem_cons_of_mem _ ht)
    rw [List.foldl_cons]
    by_cases hs : severeSum s = 0
    · have hstep : routeStep acc s = acc := by simp [routeStep, hs]
      have hc : contribR r s = false := by simp [contribR, hs]
      rw [hstep, List.filter_cons_of_neg (by simp [hc]), ih _ _ hnd']
    · have hstep : routeStep acc s = s.routes.foldl (fun a route => upsert a route RouteAcc.init
          (fun q => ⟨q.total_friction + severeSum s, q.impacted_stops + 1⟩)) acc := by
        simp [routeStep, hs]
      rw [hstep]
      by_cases hr : r ∈ s.routes
      · have hc : contribR r s = true := by simp [contribR, hr, hs]
        rw [List.filter_cons_of_pos hc, List.foldl_cons, ih _ _ hnd',
          route_inner_touched _ _ _ _ hnds hr]
      · have hc : contribR r s = false := by simp [contribR, hr]
        rw [List.filter_cons_of_neg (by simp [hc]), ih _ _ hnd']
        unfold lookupD
        rw [route_inner_untouched _ _ _ _ hr]

/-- The inner route loop keeps bucket keys duplicate-free. -/
theorem route_inner_keys_nodup : ∀ (rl : List String) (acc : List (String × RouteAcc))
    (s : StopRecord), (keysOf acc).Nodup →
    (keysOf (rl.foldl (fun a route => upsert a route RouteAcc.init
        (fun q => ⟨q.total_friction + severeSum s, q.impacted_stops + 1⟩)) acc)).Nodup := by
  intro rl
  induction rl with
  | nil => intro acc s h; exact h
  | cons a rl' ih =>
    intro acc s h
    rw [List.foldl_cons]
    apply ih
    rw [keysOf_upsert]
    exact nodup_insertSet _ _ h

/-- The route aggregation keeps its keys duplicate-free. -/
theorem route_keys_nodup : ∀ (sd : List StopRecord) (acc : List (String × RouteAcc)),
    (keysOf acc).Nodup → (keysOf (sd.foldl routeStep acc)).Nodup := by
  intro sd
  induction sd with
  | nil => intro acc h; exact h
  | cons s sd' ih =>
    intro acc h
    rw [List.foldl_cons]
    apply ih
    unfold routeStep
    by_cases hs : severeSum s = 0
    · simp only [if_pos hs]
      exact h
    · simp only [if_neg hs]
      exact route_inner_keys_nodup _ _ _ h

/-- The inner route loop keeps every bucket's impacted count positive. -/
theorem route_inner_pos : ∀ (rl : List String) (acc : List (String × RouteAcc))
    (s : StopRecord), (∀ p ∈ acc, 0 < (p.2).impacted_stops) →
    ∀ p ∈ rl.foldl (fun a route => upsert a route RouteAcc.init
        (fun q => ⟨q.total_friction + severeSum s, q.impacted_stops + 1⟩)) acc,
      0 < (p.2).impacted_stops := by
  intro rl
  induction rl with
  | nil => intro acc s h; exact h
  | cons a rl' ih =>
    intro acc s h
    rw [List.foldl_cons]
    apply ih
    apply upsert_values acc a RouteAcc.init
      (fun q => ⟨q.total_friction + severeSum s, q.impacted_stops + 1⟩)
      (fun v => 0 < v.impacted_stops) h
    intro v
    simp

/-- Every route bucket ever created has a positive impacted-stop count. -/
theorem route_pos : ∀ (sd : List StopRecord) (acc : List (String × RouteAcc)),
    (∀ p ∈ acc, 0 < (p.2).impacted_stops) →
    ∀ p ∈ sd.foldl routeStep acc, 0 < (p.2).impacted_stops := by
  intro sd
  induction sd with
  | nil => intro acc h; exact h
  | cons s sd' ih =>
    intro acc h
    rw [List.foldl_cons]
    apply ih
    unfold routeStep
    by_cases hs : severeSum s = 0
    · simp only [if_pos hs]
      exact h
    · simp only [if_neg hs]
      exact route_inner_pos _ _ _ h

/-- Accumulated friction and impacted count of a route bucket fold. -/
theorem routeFold_foldl : ∀ (L : List StopRecord) (a : RouteAcc),
    (L.foldl routeFold a).total_friction = a.total_friction + (L.map severeSum).sum ∧
      (L.foldl routeFold a).impacted_stops = a.impacted_stops + L.length := by
  intro L
  induction L with
  | nil => intro a; simp
  | cons s L' ih =>
    intro a
    rw [List.foldl_cons]
    obtain ⟨h1, h2⟩ := ih (routeFold a s)
    constructor
    · rw [h1]
      simp [routeFold]
      omega
    · rw [h2]
      simp [routeFold]
      omega

/-- Per-stop route lists are sorted duplicate-free. -/
theorem stop_routes_nodup (routes : List RouteRow) (sid : String) :
    (stop_routes routes sid).Nodup := by
  unfold stop_routes sortStrings
  have h1 : (((routes.filter (fun r => decide (r.stop_id = sid))).map
      RouteRow.route_num).foldl insertSet []).Nodup :=
    nodup_foldl_insertSet _ [] List.nodup_nil
  exact (List.mergeSort_perm _ _).nodup_iff.2 h1

/-- Every entry of the neighborhoods artifact records exactly the
severity-≥3 mass and the member count of the stop records contributing to
its label, and its impacted-stop count is positive. -/
theorem nbh_artifact_spec (sd : List StopRecord) :
    ∀ e ∈ neighborhoods_out sd,
      e.total_barriers = ((sd.filter (contribN e.name)).map severeSum).sum ∧
        e.impacted_stops = (sd.filter (contribN e.name)).length ∧
        0 < e.impacted_stops := by
  intro e he
  simp only [neighborhoods_out, List.mem_mergeSort, List.mem_filterMap] at he
  obtain ⟨p, hp, hf⟩ := he
  by_cases hc : p.2.count = 0
  · rw [if_pos hc] at hf
    cases hf
  · rw [if_neg hc, Option.some.injEq] at hf
    have hkeys := nbh_keys_inv sd [] List.nodup_nil (List.not_mem_nil "")
    have hlook : lookupA (sd.foldl nbhStep []) p.1 = some p.2 :=
      lookupA_eq_of_mem _ _ _ hkeys.1 (by simpa using hp)
    have hname : p.1 ≠ "" := by
      intro hns
      apply hkeys.2
      rw [← hns]
      exact List.mem_map_of_mem Prod.fst hp
    have hval := nbh_value_foldl sd [] p.1 hname
    have hinit : lookupD ([] : List (String × NbhAcc)) p.1 NbhAcc.init = NbhAcc.init := rfl
    rw [hinit] at hval
    have hp2 : p.2 = (sd.filter (contribN p.1)).foldl nbhFold NbhAcc.init := by
      rw [← hval]
      unfold lookupD
      rw [hlook]
      rfl
    obtain ⟨hb, hs, -⟩ := nbhFold_foldl (sd.filter (contribN p.1)) NbhAcc.init
    have hpos := nbh_pos sd [] (by intro q hq; cases hq) p hp
    have hename : e.name = p.1 := by rw [← hf]
    have hetb : e.total_barriers = p.2.barriers := by rw [← hf]
    have heis : e.impacted_stops = p.2.stops := by rw [← hf]
    refine ⟨?_, ?_, ?_⟩
    · rw [hetb, hp2, hb, hename]
      simp [NbhAcc.init]
    · rw [heis, hp2, hs, hename]
      simp [NbhAcc.init]
    · rw [heis]
      exact hpos.2

/-- Every entry of the routes artifact records exactly the severity-≥3
mass summed over the stop records contributing to its route and their
count, its impacted-stop count is positive, and `friction_per_stop` is the
rounded quotient (the zero fallback is never used). -/
theorem route_artifact_spec (sd : List StopRecord) (hnd : ∀ s ∈ sd, s.routes.Nodup) :
    ∀ e ∈ routes_out sd,
      e.total_friction = ((sd.filter (contribR e.route)).map severeSum).sum ∧
        e.impacted_stops = (sd.filter (contribR e.route)).length ∧
        0 < e.impacted_stops ∧
        e.friction_per_stop
          = roundDec ((e.total_friction : ℚ) / (e.impacted_stops : ℚ)) 2 := by
  intro e he
  simp only [routes_out, List.mem_mergeSort, List.mem_map] at he
  obtain ⟨p, hp, hf⟩ := he
  have hkeys := route_keys_nodup sd [] List.nodup_nil
  have hlook : lookupA (sd.foldl routeStep []) p.1 = some p.2 :=
    lookupA_eq_of_mem _ _ _ hkeys (by simpa using hp)
  have hval := route_value_foldl sd [] p.1 hnd
  have hinit : lookupD ([] : List (String × RouteAcc)) p.1 RouteAcc.init = RouteAcc.init := rfl
  rw [hinit] at hval
  have hp2 : p.2 = (sd.filter (contribR p.1)).foldl routeFold RouteAcc.init := by
    rw [← hval]
    unfold lookupD
    rw [hlook]
    rfl
  obtain ⟨hb, hs⟩ := routeFold_foldl (sd.filter (contribR p.1)) RouteAcc.init
  have hpos := route_pos sd [] (by intro q hq; cases hq) p hp
  have heroute : e.route = p.1 := by rw [← hf]
  have hetf : e.total_friction = p.2.total_friction := by rw [← hf]
  have heis : e.impacted_stops = p.2.impacted_stops := by rw [← hf]
  have hposis : 0 < e.impacted_stops := heis ▸ hpos
  refine ⟨?_, ?_, hposis, ?_⟩
  · rw [hetf, hp2, hb, heroute]
    simp [RouteAcc.init]
  · rw [heis, hp2, hs, heroute]
    simp [RouteAcc.init]
  · have hfps : e.friction_per_stop
        = if p.2.impacted_stops ≠ 0 then
            roundDec ((p.2.total_friction : ℚ) / (p.2.impacted_stops : ℚ)) 2
          else 0 := by
      rw [← hf]
    rw [hfps, if_pos (by omega : p.2.impacted_stops ≠ 0), hetf, heis]

/- ### Concrete-scenario evaluations -/

/-- Grid key of the concrete barrier. -/
theorem example_grid_key_barrier :
    grid_key exampleBarrier.lon exampleBarrier.lat = (-122330, 47600) := by
  simp only [grid_key, exampleBarrier, GRID_SIZE, Prod.mk.injEq]
  norm_num [round_eq]

/-- Grid key of the concrete stop. -/
theorem example_grid_key_stop :
    grid_key exampleStop.lon exampleStop.lat = (-122330, 47600) := by
  simp only [grid_key, exampleStop, GRID_SIZE, Prod.mk.injEq]
  norm_num [round_eq]

/-- The concrete barrier passes the bounding-box test for the concrete
stop (|Δlon| = 0.0001, |Δlat| = 0.0003, both ≤ 0.0005). -/
theorem example_bbox : bboxMatch exampleStop.lon exampleStop.lat exampleBarrier = true := by
  simp only [bboxMatch, exampleStop, exampleBarrier, THRESHOLD, decide_eq_true_eq, abs_le]
  norm_num

/-- The grid-indexed search matches exactly the concrete barrier. -/
theorem example_nearby : nearby_barriers [exampleBarrier] exampleStop.lon exampleStop.lat
    = [exampleBarrier] := by
  simp only [nearby_barriers, example_grid_key_stop, cellOffsets, List.flatMap_cons,
    List.flatMap_nil, barrier_grid, List.filter_cons, List.filter_nil,
    example_grid_key_barrier]
  norm_num [example_bbox]

/-- The concrete scenario's stop record, field by field. -/
theorem example_record_eq : exampleRecord =
    { id := "S1", name := "PINE ST", lat := exampleStop.lat, lon := exampleStop.lon,
      routes := ["R1"], neighborhood := some "Downtown", barrier_types := ["NoCurbRamp"],
      severity := [(4, 1)], total_barriers := 1 } := by
  unfold exampleRecord summarizeStop
  rw [example_nearby]
  simp [aggregateBarriers, processBarrier, AggState.init, exampleBarrier, bump, insertSet,
    maxByCount, stop_routes, sortStrings, exampleRouteRow, exampleStop]

/-- The concrete pipeline's `stop_data`. -/
theorem example_stop_data :
    stop_data [exampleBarrier] [exampleRouteRow] [exampleStop] = [exampleRecord] := rfl

/-- The concrete record's severity-≥3 mass. -/
theorem example_severeSum : severeSum exampleRecord = 1 := by
  rw [example_record_eq]
  rfl

/-- The concrete pipeline's neighborhoods artifact. -/
theorem example_neighborhoods_out :
    neighborhoods_out [exampleRecord] = [exampleNbhOut] := by
  rw [example_record_eq]
  simp [neighborhoods_out, nbhStep, severeSum, upsert, NbhAcc.init, nbhUpdate,
    exampleNbhOut, exampleStop, roundDec, round_eq]
  norm_num

/-- The concrete pipeline's routes artifact. -/
theorem example_routes_out : routes_out [exampleRecord] = [exampleRouteOut] := by
  rw [example_record_eq]
  simp [routes_out, routeStep, severeSum, upsert, RouteAcc.init,
    exampleRouteOut, roundDec, round_eq]
  norm_num

/- ### C2: the bounding-box acceptance test and the concrete scenario -/

/-- C2: the join accepts a barrier for a stop iff it is in the input and
both coordinate differences are within the threshold (axis-aligned square
test); in the spec's concrete scenario the barrier at (−122.3301, 47.6003)
is matched by the stop at (−122.33, 47.60) and yields
`severity = {"4": 1}`, `barrier_types = ["NoCurbRamp"]`,
`total_barriers = 1`. -/
theorem bbox_accept_and_concrete_scenario :
    (∀ (barriers : List Barrier) (slon slat : ℚ) (b : Barrier),
      b ∈ nearby_barriers barriers slon slat ↔
        b ∈ barriers ∧ |b.lon - slon| ≤ THRESHOLD ∧ |b.lat - slat| ≤ THRESHOLD) ∧
    bboxMatch exampleStop.lon exampleStop.lat exampleBarrier = true ∧
    severityJson exampleRecord = [("4", 1)] ∧
    exampleRecord.barrier_types = ["NoCurbRamp"] ∧
    exampleRecord.total_barriers = 1 := by
  refine ⟨?_, example_bbox, ?_, ?_, ?_⟩
  · intro barriers slon slat b
    rw [mem_nearby_iff]
    constructor
    · rintro ⟨hb, -, -, hbox⟩
      rw [bboxMatch, decide_eq_true_eq] at hbox
      exact ⟨hb, hbox⟩
    · rintro ⟨hb, h1, h2⟩
      have hbox : bboxMatch slon slat b = true := by
        rw [bboxMatch, decide_eq_true_eq]
        exact ⟨h1, h2⟩
      obtain ⟨hg1, hg2⟩ := bbox_grid_close (by norm_num [THRESHOLD, GRID_SIZE]) slon slat b hbox
      exact ⟨hb, hg1, hg2, hbox⟩
  · rw [severityJson, example_record_eq]
    rfl
  · rw [example_record_eq]
  · rw [example_record_eq]

/-- Witness for C2: the acceptance equivalence instantiated at the concrete
scenario. -/
theorem bbox_accept_and_concrete_scenario_witness :
    exampleBarrier ∈ nearby_barriers [exampleBarrier] exampleStop.lon exampleStop.lat ↔
      exampleBarrier ∈ [exampleBarrier] ∧
        |exampleBarrier.lon - exampleStop.lon| ≤ THRESHOLD ∧
        |exampleBarrier.lat - exampleStop.lat| ≤ THRESHOLD :=
  bbox_accept_and_concrete_scenario.1 [exampleBarrier] exampleStop.lon exampleStop.lat
    exampleBarrier

/- ### C6: rollup inclusion and consistency -/

/-- C6: a stop record contributes to a neighborhood bucket iff it carries
that (non-null) label and has positive severity-≥3 mass, and to a route
bucket iff it serves the route with positive severity-≥3 mass; every
artifact entry's `total_barriers` / `total_friction` is the sum of the
severity-≥3 masses over exactly the contributing stop records, and
`impacted_stops` is their number. -/
theorem rollup_consistency (barriers : List Barrier) (rroutes : List RouteRow)
    (stops : List Stop) :
    (∀ e ∈ neighborhoods_out (stop_data barriers rroutes stops),
      e.total_barriers = (((stop_data barriers rroutes stops).filter
          (contribN e.name)).map severeSum).sum ∧
        e.impacted_stops = ((stop_data barriers rroutes stops).filter
          (contribN e.name)).length) ∧
    (∀ e ∈ routes_out (stop_data barriers rroutes stops),
      e.total_friction = (((stop_data barriers rroutes stops).filter
          (contribR e.route)).map severeSum).sum ∧
        e.impacted_stops = ((stop_data barriers rroutes stops).filter
          (contribR e.route)).length) := by
  have hnd : ∀ s ∈ stop_data barriers rroutes stops, s.routes.Nodup := by
    intro s hs
    obtain ⟨t, -, rfl⟩ := List.mem_map.1 hs
    exact stop_routes_nodup rroutes t.stop_id
  constructor
  · intro e he
    obtain ⟨h1, h2, -⟩ := nbh_artifact_spec _ e he
    exact ⟨h1, h2⟩
  · intro e he
    obtain ⟨h1, h2, -, -⟩ := route_artifact_spec _ hnd e he
    exact ⟨h1, h2⟩

/-- Witness for C6: the consistency equalities at the concrete pipeline's
single neighborhood entry. -/
theorem rollup_consistency_witness :
    exampleNbhOut.total_barriers =
      (((stop_data [exampleBarrier] [exampleRouteRow] [exampleStop]).filter
        (contribN exampleNbhOut.name)).map severeSum).sum ∧
    exampleNbhOut.impacted_stops =
      ((stop_data [exampleBarrier] [exampleRouteRow] [exampleStop]).filter
        (contribN exampleNbhOut.name)).length := by
  have hmem : exampleNbhOut ∈
      neighborhoods_out (stop_data [exampleBarrier] [exampleRouteRow] [exampleStop]) := by
    rw [example_stop_data, example_neighborhoods_out]
    exact List.mem_singleton_self _
  exact (rollup_consistency [exampleBarrier] [exampleRouteRow] [exampleStop]).1
    exampleNbhOut hmem

/- ### C7: route friction is a barrier count, not a severity sum -/

/-- Counterexample to C7 as stated: in the concrete scenario the route's
only impacted stop has one severity-4 barrier; the glossary's friction
(sum of severities of impactful barriers) is 4, but the artifact's
`total_friction` is 1. -/
theorem glossary_friction_counterexample :
    (routes_out (stop_data [exampleBarrier] [exampleRouteRow] [exampleStop])).map
        RouteOut.total_friction = [1] ∧
    (((stop_data [exampleBarrier] [exampleRouteRow] [exampleStop]).filter
        (contribR "R1")).map frictionGlossary).sum = 4 ∧
    ¬((1 : ℤ) = 4) := by
  refine ⟨?_, ?_, by decide⟩
  · rw [example_stop_data, example_routes_out]
    rfl
  · rw [example_stop_data]
    have hcr : contribR "R1" exampleRecord = true := by
      simp [contribR, example_severeSum, show exampleRecord.routes = ["R1"] by
        rw [example_record_eq]]
    rw [List.filter_cons_of_pos hcr, List.filter_nil, List.map_cons, List.map_nil,
      show frictionGlossary exampleRecord = 4 by rw [frictionGlossary, example_record_eq]; rfl]
    rfl

/-- C7 (amended): `total_friction` of a route is the sum over its impacted
stops of the *count* of severity-≥3 barriers (the severity-≥3 histogram
mass), not the sum of severity values, and `friction_per_stop` is that
total divided by `impacted_stops`, rounded to two decimals. -/
theorem routes_friction_is_count (barriers : List Barrier) (rroutes : List RouteRow)
    (stops : List Stop) :
    ∀ e ∈ routes_out (stop_data barriers rroutes stops),
      e.total_friction = (((stop_data barriers rroutes stops).filter
          (contribR e.route)).map severeSum).sum ∧
        e.friction_per_stop
          = roundDec ((e.total_friction : ℚ) / (e.impacted_stops : ℚ)) 2 := by
  have hnd : ∀ s ∈ stop_data barriers rroutes stops, s.routes.Nodup := by
    intro s hs
    obtain ⟨t, -, rfl⟩ := List.mem_map.1 hs
    exact stop_routes_nodup rroutes t.stop_id
  intro e he
  obtain ⟨h1, -, -, h4⟩ := route_artifact_spec _ hnd e he
  exact ⟨h1, h4⟩

/-- Witness for the amended C7 at the concrete pipeline's single route
entry. -/
theorem routes_friction_is_count_witness :
    exampleRouteOut.total_friction =
      (((stop_data [exampleBarrier] [exampleRouteRow] [exampleStop]).filter
        (contribR exampleRouteOut.route)).map severeSum).sum ∧
    exampleRouteOut.friction_per_stop
      = roundDec ((exampleRouteOut.total_friction : ℚ)
          / (exampleRouteOut.impacted_stops : ℚ)) 2 := by
  have hmem : exampleRouteOut ∈
      routes_out (stop_data [exampleBarrier] [exampleRouteRow] [exampleStop]) := by
    rw [example_stop_data, example_routes_out]
    exact List.mem_singleton_self _
  exact routes_friction_is_count [exampleBarrier] [exampleRouteRow] [exampleStop]
    exampleRouteOut hmem

/- ### C8: artifact ordering -/

/-- C8: the neighborhoods artifact is sorted descending by
`friction_intensity` and the routes artifact descending by
`total_friction`: each adjacent pair is ordered with the earlier entry's
key at least the later's. -/
theorem artifacts_sorted_desc (sd : List StopRecord) :
    List.Chain' (fun a b => b.friction_intensity ≤ a.friction_intensity)
      (neighborhoods_out sd) ∧
    List.Chain' (fun a b => b.total_friction ≤ a.total_friction) (routes_out sd) := by
  constructor
  · simp only [neighborhoods_out]
    apply List.Pairwise.chain'
    apply List.Pairwise.imp (fun h => of_decide_eq_true h)
    apply List.sorted_mergeSort
    · intro a b c h1 h2
      simp only [decide_eq_true_eq] at *
      exact le_trans h2 h1
    · intro a b
      simp only [Bool.or_eq_true, decide_eq_true_eq]
      exact le_total _ _
  · simp only [routes_out]
    apply List.Pairwise.chain'
    apply List.Pairwise.imp (fun h => of_decide_eq_true h)
    apply List.sorted_mergeSort
    · intro a b c h1 h2
      simp only [decide_eq_true_eq] at *
      exact le_trans h2 h1
    · intro a b
      simp only [Bool.or_eq_true, decide_eq_true_eq]
      exact le_total _ _

/- ### C10: rollup divisions are safe -/

/-- C10: every neighborhood bucket has positive member and stop counts,
every route bucket has a positive impacted-stop count, every artifact
entry's `impacted_stops` is positive, and `friction_per_stop` always comes
from the division branch — the zero fallback is never taken. -/
theorem rollup_divisors_positive (sd : List StopRecord) :
    (∀ p ∈ sd.foldl nbhStep [], 0 < (p.2).count ∧ 0 < (p.2).stops) ∧
    (∀ p ∈ sd.foldl routeStep [], 0 < (p.2).impacted_stops) ∧
    (∀ e ∈ neighborhoods_out sd, 0 < e.impacted_stops) ∧
    (∀ e ∈ routes_out sd, 0 < e.impacted_stops ∧
      e.friction_per_stop
        = roundDec ((e.total_friction : ℚ) / (e.impacted_stops : ℚ)) 2) := by
  refine ⟨nbh_pos sd [] (by intro q hq; cases hq),
    route_pos sd [] (by intro q hq; cases hq), ?_, ?_⟩
  · intro e he
    exact (nbh_artifact_spec sd e he).2.2
  · intro e he
    simp only [routes_out, List.mem_mergeSort, List.mem_map] at he
    obtain ⟨p, hp, hf⟩ := he
    have hpos := route_pos sd [] (by intro q hq; cases hq) p hp
    have heis : e.impacted_stops = p.2.impacted_stops := by rw [← hf]
    have hetf : e.total_friction = p.2.total_friction := by rw [← hf]
    refine ⟨heis ▸ hpos, ?_⟩
    have hfps : e.friction_per_stop
        = if p.2.impacted_stops ≠ 0 then
            roundDec ((p.2.total_friction : ℚ) / (p.2.impacted_stops : ℚ)) 2
          else 0 := by
      rw [← hf]
    rw [hfps, if_pos (by omega : p.2.impacted_stops ≠ 0), hetf, heis]

/-- Witness for C10 at the concrete pipeline's artifact entries. -/
theorem rollup_divisors_positive_witness :
    0 < exampleNbhOut.impacted_stops ∧ 0 < exampleRouteOut.impacted_stops := by
  have hmem1 : exampleNbhOut ∈ neighborhoods_out [exampleRecord] := by
    rw [example_neighborhoods_out]
    exact List.mem_singleton_self _
  have hmem2 : exampleRouteOut ∈ routes_out [exampleRecord] := by
    rw [example_routes_out]
    exact List.mem_singleton_self _
  exact ⟨(rollup_divisors_positive [exampleRecord]).2.2.1 _ hmem1,
    ((rollup_divisors_positive [exampleRecord]).2.2.2 _ hmem2).1⟩

/-- Witness for C5: in the concrete scenario the chosen label "Downtown" is
non-empty and out-votes any other label. -/
theorem neighborhood_is_plurality_witness :
    "Downtown" ≠ "" ∧
    votesCount (survivors [] (nearby_barriers [exampleBarrier] exampleStop.lon
        exampleStop.lat)) "Uptown" ≤
      votesCount (survivors [] (nearby_barriers [exampleBarrier] exampleStop.lon
        exampleStop.lat)) "Downtown" := by
  have hsome : (summarizeStop [exampleBarrier] [exampleRouteRow] exampleStop).neighborhood
      = some "Downtown" := by
    rw [show summarizeStop [exampleBarrier] [exampleRouteRow] exampleStop = exampleRecord
      from rfl, example_record_eq]
  have h := (neighborhood_is_plurality [exampleBarrier] [exampleRouteRow] exampleStop).2
    "Downtown" hsome
  exact ⟨h.1, h.2.2 "Uptown" (by decide)⟩
